import Mathlib

/-!
Verification development for the doctypes Dynamic Schema Document Engine.

The definitions below are a shallow embedding of the Python source under
src/doctypes/: documents hold a JSON payload (Django JSONField), modelled as
an insertion-ordered association list of string keys to JSON-like values,
which is how Python dicts behave.  Sandboxed evaluations (hook conditions,
hook actions, transition conditions) run arbitrary restricted Python; they are
modelled as oracle functions from the document data to their outcome, so the
dispatch logic around them is embedded exactly while the evaluated expressions
stay abstract.  Wall-clock timestamps and user identities are omitted from the
embedded records: no verified property depends on them.

Payload values are modelled up to one level of container nesting: primitive
JSON values, lists of primitives, dicts of primitives, and lists of such dicts
(the shape of the hook-failure log and the workflow history that the engine
itself writes into document data).  Every verified property uses values in
this domain.  Floating point numbers do not occur in any verified property
and are omitted; equality on values is structural.
-/

namespace Doctypes

/-- Primitive JSON values. -/
inductive Prim where
  | pNull : Prim
  | pBool : Bool → Prim
  | pInt : Int → Prim
  | pStr : String → Prim
deriving DecidableEq, Repr

/-- JSON-like values stored in a JSONField payload (see the header comment
for the nesting depth of the modelled domain). -/
inductive Value where
  | prim : Prim → Value
  | vList : List Prim → Value
  | vDict : List (String × Prim) → Value
  | vDictList : List (List (String × Prim)) → Value
deriving DecidableEq, Repr

/-- Shorthand for an integer payload value. -/
def vInt (n : Int) : Value := Value.prim (Prim.pInt n)

/-- Shorthand for a string payload value. -/
def vStr (s : String) : Value := Value.prim (Prim.pStr s)

/-- Shorthand for a boolean payload value. -/
def vBool (b : Bool) : Value := Value.prim (Prim.pBool b)

/-- Shorthand for the null payload value. -/
def vNull : Value := Value.prim Prim.pNull

/-- A document data payload: a Python dict with string keys, i.e. an
insertion-ordered association list with (in practice) unique keys. -/
abbrev DocData := List (String × Value)

/-- Membership test, Python `key in d`, for any string-keyed dict. -/
def containsKey {α : Type} (d : List (String × α)) (k : String) : Bool :=
  d.any (fun p => p.1 == k)

/-- Lookup, Python `d[key]` / `d.get(key)`, for any string-keyed dict. -/
def lookupKey {α : Type} (d : List (String × α)) (k : String) : Option α :=
  (d.find? (fun p => p.1 == k)).map (fun p => p.2)

/-- In-place update of every entry carrying the key (at most one in a
dict-shaped list). -/
def updateKey {α : Type} : List (String × α) → String → α → List (String × α)
  | [], _, _ => []
  | (k0, v0) :: rest, k, v =>
    (if k0 == k then (k, v) else (k0, v0)) :: updateKey rest k v

/-- Assignment, Python `d[key] = v`: updates the entry in place when the key
is present, otherwise appends it (dicts preserve insertion order). -/
def setKey {α : Type} (d : List (String × α)) (k : String) (v : α) :
    List (String × α) :=
  if containsKey d k then updateKey d k v else d ++ [(k, v)]

/-- The changes record built by VersionEngine._calculate_changes
(version_engine.py, lines 251-283): a dict with keys added, modified and
removed.  In the source each modified entry is a dict with keys old and new;
here it is embedded as the pair of the old and the new value. -/
structure Changes where
  added : DocData
  modified : List (String × Value × Value)
  removed : DocData
deriving DecidableEq, Repr

/-- First loop of _calculate_changes: iterate new_data.items() in order,
classifying each key as added (absent from old) or modified (present in both
with unequal values, carrying old and new). -/
def addedModified (oldData : DocData) :
    List (String × Value) → DocData × List (String × Value × Value)
  | [] => ([], [])
  | (k, newV) :: rest =>
    let tail := addedModified oldData rest
    match lookupKey oldData k with
    | none => ((k, newV) :: tail.1, tail.2)
    | some oldV =>
      if oldV = newV then tail
      else (tail.1, (k, oldV, newV) :: tail.2)

/-- VersionEngine._calculate_changes (version_engine.py, lines 251-283). -/
def calculateChanges (oldData newData : DocData) : Changes :=
  let am := addedModified oldData newData
  { added := am.1
    modified := am.2
    removed := oldData.filter (fun p => !(containsKey newData p.1)) }

/-- One declared schema field, as read by Document.validate_data
(models.py, lines 225-249): field_config is a dict with name, type and an
optional required flag defaulting to False. -/
structure Field where
  name : String
  ftype : String
  required : Bool
deriving DecidableEq, Repr

/-- Drop leading whitespace characters. -/
def dropLeadingWs : List Char → List Char
  | [] => []
  | c :: rest => if c.isWhitespace then dropLeadingWs rest else c :: rest

/-- Python int(s) on a string: optional surrounding whitespace, an optional
sign, then a nonempty run of digits.  (Underscore digit separators are not
modelled; no verified property uses them.) -/
def pyIntOfString (s : String) : Option Int :=
  let t := (dropLeadingWs ((dropLeadingWs s.data).reverse)).reverse
  match t with
  | [] => none
  | c :: rest =>
    let signDigits : Bool × List Char :=
      if c = '-' then (true, rest)
      else if c = '+' then (false, rest)
      else (false, c :: rest)
    if signDigits.2 ≠ [] ∧ signDigits.2.all Char.isDigit then
      let n : Nat := signDigits.2.foldl (fun acc ch => acc * 10 + (ch.toNat - 48)) 0
      if signDigits.1 then some (-(n : Int)) else some (n : Int)
    else none

/-- Python isinstance(value, int).  Python bool is a subclass of int, so
booleans satisfy the check. -/
def isInstanceInt : Value → Bool
  | Value.prim (Prim.pInt _) => true
  | Value.prim (Prim.pBool _) => true
  | _ => false

/-- Python isinstance(value, bool). -/
def isInstanceBool : Value → Bool
  | Value.prim (Prim.pBool _) => true
  | _ => false

/-- Python int(value) for the coercion branch: numeric-looking strings
convert, everything else raises (None, lists and dicts raise TypeError;
non-numeric strings raise ValueError). -/
def pyIntCoerce : Value → Option Int
  | Value.prim (Prim.pStr s) => pyIntOfString s
  | Value.prim (Prim.pInt n) => some n
  | Value.prim (Prim.pBool b) => some (if b then 1 else 0)
  | _ => none

/-- One iteration of the field loop in Document.validate_data
(models.py, lines 230-249): required check, then in-place integer coercion
or boolean check for present values. -/
def validateField (data : DocData) (f : Field) : Except String DocData :=
  if f.required ∧ !(containsKey data f.name) then
    Except.error ("Field " ++ f.name ++ " is required")
  else
    match lookupKey data f.name with
    | none => Except.ok data
    | some v =>
      if f.ftype == "integer" ∧ !(isInstanceInt v) then
        match pyIntCoerce v with
        | some n => Except.ok (setKey data f.name (vInt n))
        | none => Except.error ("Field " ++ f.name ++ " must be an integer")
      else if f.ftype == "boolean" ∧ !(isInstanceBool v) then
        Except.error ("Field " ++ f.name ++ " must be a boolean")
      else
        Except.ok data

/-- Document.validate_data (models.py, lines 225-249): iterate the schema
fields in order, threading the (possibly coerced) payload; the first failure
raises ValidationError.  Unknown keys of the payload are never examined. -/
def validateData (fields : List Field) (data : DocData) : Except String DocData :=
  match fields with
  | [] => Except.ok data
  | f :: rest =>
    match validateField data f with
    | Except.error e => Except.error e
    | Except.ok d2 => validateData rest d2

/-- Python s.startswith(pre), used on hook type names; implemented over the
character list so that it evaluates inside the kernel. -/
def pyStartsWith (s pre : String) : Bool :=
  pre.data.isPrefixOf s.data

/-- One entry of the results list built by HookEngine.execute_hooks
(hook_engine.py, lines 80-105); the captured traceback text is omitted. -/
structure HookResult where
  hookId : Nat
  hookType : String
  actionType : String
  success : Bool
  errorMsg : Option String
deriving DecidableEq, Repr

/-- A DoctypeHook row (engine_models.py, lines 202-253) together with the
oracle outcomes of its sandboxed evaluations.  condition is none when the
condition text is empty (then hook.condition is falsy and the check is not
taken); otherwise it maps the current document data to the outcome of
eval-ing the expression: a boolean, or the exception it raised.  run maps the
current document data to the outcome of _execute_hook: the (possibly updated,
for python actions writing data) document data, or the message of the
exception the action raised. -/
structure Hook where
  id : Nat
  hookType : String
  actionType : String
  isActive : Bool
  condition : Option (DocData → Except String Bool)
  run : DocData → Except String DocData

/-- HookEngine._evaluate_condition combined with the skip test of
execute_hooks (hook_engine.py, lines 73-76 and 290-311): an empty condition
never skips; an evaluation exception is caught, logged and returned as
False, so the hook is skipped exactly as for a false condition. -/
def conditionMet (c : Option (DocData → Except String Bool)) (d : DocData) : Bool :=
  match c with
  | none => true
  | some f =>
    match f d with
    | Except.ok b => b
    | Except.error _ => false

/-- The queryset of execute_hooks (hook_engine.py, lines 63-67): active hooks
of the given type.  The ascending order_by on the order column is modelled by
keeping the doctype's hook list already in execution order. -/
def selectHooks (hookType : String) (hooks : List Hook) : List Hook :=
  hooks.filter (fun h => h.hookType == hookType && h.isActive)

/-- The dict appended by HookEngine._log_hook_failure (hook_engine.py,
lines 319-325); the wall-clock timestamp entry is omitted. -/
def failureEntry (h : Hook) (msg : String) : List (String × Prim) :=
  [("hook_id", Prim.pInt h.id), ("hook_type", Prim.pStr h.hookType),
   ("action_type", Prim.pStr h.actionType), ("error", Prim.pStr msg)]

/-- HookEngine._log_hook_failure (hook_engine.py, lines 313-329): append a
failure record to data at key hook_failures (created when absent) and keep
only the last 10 entries. -/
def logHookFailure (d : DocData) (h : Hook) (msg : String) : DocData :=
  let prev : List (List (String × Prim)) :=
    match lookupKey d "hook_failures" with
    | some (Value.vDictList xs) => xs
    | _ => []
  let entries := prev ++ [failureEntry h msg]
  let trimmed :=
    if entries.length > 10 then entries.drop (entries.length - 10) else entries
  setKey d "hook_failures" (Value.vDictList trimmed)

/-- The document data and results list threaded through execute_hooks. -/
structure HookRun where
  data : DocData
  results : List HookResult
deriving Repr

/-- The error message format of execute_hooks (hook_engine.py, line 94). -/
def hookErrorMsg (msg : String) : String := "Hook execution failed: " ++ msg

/-- The hook loop of HookEngine.execute_hooks (hook_engine.py, lines 71-116):
skip hooks whose condition does not hold (including conditions that raise),
record a success or failure result for each executed hook, log failures on
the document, and re-raise as HookExecutionError for before_* hook types. -/
def runHooksList (hookType : String) (hs : List Hook) (st : HookRun) :
    Except String HookRun :=
  match hs with
  | [] => Except.ok st
  | h :: rest =>
    if !(conditionMet h.condition st.data) then
      runHooksList hookType rest st
    else
      match h.run st.data with
      | Except.ok newData =>
        runHooksList hookType rest
          { data := newData
            results := st.results ++
              [{ hookId := h.id, hookType := hookType, actionType := h.actionType,
                 success := true, errorMsg := none }] }
      | Except.error msg =>
        let emsg := hookErrorMsg msg
        let st2 : HookRun :=
          { data := logHookFailure st.data h emsg
            results := st.results ++
              [{ hookId := h.id, hookType := hookType, actionType := h.actionType,
                 success := false, errorMsg := some emsg }] }
        if pyStartsWith hookType "before_" then
          Except.error ("Critical hook failed: " ++ emsg)
        else
          runHooksList hookType rest st2

/-- HookEngine.execute_hooks (hook_engine.py, lines 49-116). -/
def executeHooks (hookType : String) (hooks : List Hook) (d : DocData) :
    Except String HookRun :=
  runHooksList hookType (selectHooks hookType hooks) { data := d, results := [] }

/-- A DocumentVersion row (engine_models.py, lines 60-82): version number,
full data snapshot, changes from the previous version and a comment.  The
model defines no integrity-hash column and no verify_integrity method.
changed_by and changed_at are omitted. -/
structure Version where
  versionNumber : Int
  dataSnapshot : DocData
  changes : Changes
  comment : String
deriving DecidableEq, Repr

/-- The Document row columns relevant here (models.py, lines 179-221):
the JSON data payload, the mirrored latest version number, and the
soft-delete flag (never written by any code path below). -/
structure Doc where
  data : DocData
  versionNumber : Int
  isDeleted : Bool
deriving DecidableEq, Repr

/-- The persisted state for one document: its doctype's schema fields, the
document row (none when not inserted or after deletion), and its version
rows.  Claims quantify per document, so a single-document store suffices. -/
structure Store where
  fields : List Field
  doc : Option Doc
  versions : List Version
deriving DecidableEq, Repr

/-- The order_by minus-version_number first() query of create_version
(version_engine.py, lines 47-49): the row with the largest version number. -/
def latestVersion : List Version → Option Version
  | [] => none
  | v :: rest =>
    match latestVersion rest with
    | none => some v
    | some w => if w.versionNumber > v.versionNumber then some w else some v

/-- VersionEngine.get_version (version_engine.py, lines 98-114). -/
def getVersionFromStore (st : Store) (n : Int) : Option Version :=
  st.versions.find? (fun v => v.versionNumber == n)

/-- The exceptions that can escape a document write, delete or restore. -/
inductive SaveError where
  | validationError : String → SaveError
  | hookExecutionError : String → SaveError
  | recursionError : SaveError
  | notFound : SaveError
  | valueError : String → SaveError
deriving DecidableEq, Repr

/-- Outcome of a completed document save: the persisted store, the in-memory
instance data after the pipeline, the old-data copy captured by pre_save for
on_change detection, and the hook results of each phase.  onChangeInvoked
records whether the on_change dispatch of document_post_save ran. -/
structure SaveOut where
  store : Store
  instData : DocData
  preData : Option DocData
  beforeResults : List HookResult
  afterResults : List HookResult
  onChangeInvoked : Bool
  onChangeResults : List HookResult
deriving Repr

/-- The non-recursive part of VersionEngine.create_version (version_engine.py,
lines 46-67): next version number, changes against the latest snapshot, and
the inserted row. -/
def createVersionCore (st : Store) (instData : DocData) (comment : String) :
    Store × Version :=
  let latest := latestVersion st.versions
  let newN : Int :=
    match latest with
    | some v => v.versionNumber + 1
    | none => 1
  let prevSnap : DocData :=
    match latest with
    | some v => v.dataSnapshot
    | none => []
  let ver : Version :=
    { versionNumber := newN, dataSnapshot := instData,
      changes := calculateChanges prevSnap instData, comment := comment }
  ({ st with versions := st.versions ++ [ver] }, ver)

/-- The full document save pipeline, fuel-indexed by the Python recursion
limit.  Document.save (models.py, lines 251-253) validates, then the
pre_save signal (signals.py, lines 33-65) runs before_insert or before_save
hooks, whose HookExecutionError aborts the save with nothing persisted; the
row is then written (only the version_number column when the save came from
create_version with update_fields); the post_save signal (signals.py,
lines 68-116) runs after_insert or after_save hooks, dispatches on_change
hooks when the captured old data is non-empty and differs from the current
instance data, and then calls create_version, whose own document.save
re-enters this pipeline — the recursion the fuel bounds.  Exceptions inside
the post_save handler (including the RecursionError modelled by fuel 0 and
any exception escaping create_version) are caught and logged there, so a
persisted write always completes. -/
def savePipeline (fuel : Nat) (versionOnly : Bool) (st : Store)
    (instData : DocData) (instVN : Int) (hooks : List Hook) (comment : String) :
    Except SaveError SaveOut :=
  match fuel with
  | 0 => Except.error SaveError.recursionError
  | Nat.succ f =>
    match validateData st.fields instData with
    | Except.error e => Except.error (SaveError.validationError e)
    | Except.ok data1 =>
      match st.doc with
      | none =>
        match executeHooks "before_insert" hooks data1 with
        | Except.error e => Except.error (SaveError.hookExecutionError e)
        | Except.ok run1 =>
          let data2 := run1.data
          let st1 : Store :=
            { st with doc := some { data := data2, versionNumber := instVN,
                                    isDeleted := false } }
          match executeHooks "after_insert" hooks data2 with
          | Except.error _ =>
            Except.ok { store := st1, instData := data2, preData := none,
                        beforeResults := run1.results, afterResults := [],
                        onChangeInvoked := false, onChangeResults := [] }
          | Except.ok run2 =>
            let core := createVersionCore st1 run2.data comment
            match savePipeline f true core.1 run2.data core.2.versionNumber
                hooks comment with
            | Except.error _ =>
              Except.ok { store := core.1, instData := run2.data, preData := none,
                          beforeResults := run1.results, afterResults := run2.results,
                          onChangeInvoked := false, onChangeResults := [] }
            | Except.ok inner =>
              Except.ok { store := inner.store, instData := inner.instData,
                          preData := none,
                          beforeResults := run1.results, afterResults := run2.results,
                          onChangeInvoked := false, onChangeResults := [] }
      | some d0 =>
        let oldData := d0.data
        match executeHooks "before_save" hooks data1 with
        | Except.error e => Except.error (SaveError.hookExecutionError e)
        | Except.ok run1 =>
          let data2 := run1.data
          let st1 : Store :=
            { st with doc := some { data := if versionOnly then d0.data else data2,
                                    versionNumber := instVN,
                                    isDeleted := d0.isDeleted } }
          match executeHooks "after_save" hooks data2 with
          | Except.error _ =>
            Except.ok { store := st1, instData := data2, preData := some oldData,
                        beforeResults := run1.results, afterResults := [],
                        onChangeInvoked := false, onChangeResults := [] }
          | Except.ok run2 =>
            let data3 := run2.data
            if oldData ≠ [] ∧ oldData ≠ data3 then
              match executeHooks "on_change" hooks data3 with
              | Except.error _ =>
                Except.ok { store := st1, instData := data3, preData := some oldData,
                            beforeResults := run1.results, afterResults := run2.results,
                            onChangeInvoked := true, onChangeResults := [] }
              | Except.ok run3 =>
                let core := createVersionCore st1 run3.data comment
                match savePipeline f true core.1 run3.data core.2.versionNumber
                    hooks comment with
                | Except.error _ =>
                  Except.ok { store := core.1, instData := run3.data,
                              preData := some oldData,
                              beforeResults := run1.results,
                              afterResults := run2.results,
                              onChangeInvoked := true, onChangeResults := run3.results }
                | Except.ok inner =>
                  Except.ok { store := inner.store, instData := inner.instData,
                              preData := some oldData,
                              beforeResults := run1.results,
                              afterResults := run2.results,
                              onChangeInvoked := true, onChangeResults := run3.results }
            else
              let core := createVersionCore st1 data3 comment
              match savePipeline f true core.1 data3 core.2.versionNumber
                  hooks comment with
              | Except.error _ =>
                Except.ok { store := core.1, instData := data3,
                            preData := some oldData,
                            beforeResults := run1.results, afterResults := run2.results,
                            onChangeInvoked := false, onChangeResults := [] }
              | Except.ok inner =>
                Except.ok { store := inner.store, instData := inner.instData,
                            preData := some oldData,
                            beforeResults := run1.results, afterResults := run2.results,
                            onChangeInvoked := false, onChangeResults := [] }

/-- Outcome of VersionEngine.create_version called explicitly: the store
after the attempt, the instance data after the internal save, the inserted
version row, and the exception that escaped the internal document.save, if
any (the row insert has already committed when that happens; the signal call
site swallows the exception, restore_version propagates it). -/
structure CreateVerOut where
  store : Store
  instData : DocData
  version : Version
  exn : Option SaveError
deriving Repr

/-- VersionEngine.create_version (version_engine.py, lines 35-77): insert the
next version row, then document.version_number = newN and
document.save(update_fields=[version_number]), which re-enters the save
pipeline.  This definition mirrors exactly the create-version step inlined in
savePipeline. -/
def createVersion (fuel : Nat) (st : Store) (instData : DocData)
    (hooks : List Hook) (comment : String) : CreateVerOut :=
  let core := createVersionCore st instData comment
  match savePipeline fuel true core.1 instData core.2.versionNumber hooks comment with
  | Except.error e =>
    { store := core.1, instData := instData, version := core.2, exn := some e }
  | Except.ok out =>
    { store := out.store, instData := out.instData, version := core.2, exn := none }

/-- VersionEngine.restore_version (version_engine.py, lines 159-198), wrapped
in transaction.atomic: fetch the target version (ValueError when missing),
copy its snapshot onto the live document, document.save() (the full pipeline;
the signal-created versions carry the empty default comment), then create the
new version explicitly with the restore comment.  Any exception rolls the
transaction back, so an error outcome leaves the caller's store untouched. -/
def restoreVersion (fuel : Nat) (st : Store) (targetVN : Int)
    (hooks : List Hook) (comment : String) : Except SaveError (Store × Version) :=
  match getVersionFromStore st targetVN with
  | none =>
    Except.error (SaveError.valueError ("Version " ++ toString targetVN ++ " not found"))
  | some v =>
    match st.doc with
    | none => Except.error SaveError.notFound
    | some d0 =>
      match savePipeline fuel false st v.dataSnapshot d0.versionNumber hooks "" with
      | Except.error e => Except.error e
      | Except.ok out =>
        let restoreComment :=
          if comment == "" then "Restored to version " ++ toString targetVN else comment
        let cv := createVersion fuel out.store out.instData hooks restoreComment
        match cv.exn with
        | some e => Except.error e
        | none => Except.ok (cv.store, cv.version)

/-- The delete path: document_delete (views.py, lines 543-554) fetches the
document (404 when missing) and calls document.delete() — Django's hard
delete, since Document overrides no delete method and no code path writes
is_deleted or deleted_at.  The pre_delete signal (signals.py, lines 119-133)
runs before_delete hooks and a HookExecutionError prevents the deletion; the
row is then removed and the DocumentVersion rows cascade away
(engine_models.py, line 64); the post_delete signal (signals.py,
lines 136-149) runs after_delete hooks with every exception logged and
swallowed. -/
def deleteDocument (st : Store) (hooks : List Hook) : Except SaveError Store :=
  match st.doc with
  | none => Except.error SaveError.notFound
  | some d0 =>
    match executeHooks "before_delete" hooks d0.data with
    | Except.error e => Except.error (SaveError.hookExecutionError e)
    | Except.ok run1 =>
      let st1 : Store := { st with doc := none, versions := [] }
      match executeHooks "after_delete" hooks run1.data with
      | Except.error _ => Except.ok st1
      | Except.ok _ => Except.ok st1

/-- An acting user as seen by the workflow engine: superuser flag and role
group names. -/
structure WfUser where
  isSuperuser : Bool
  groups : List String
deriving DecidableEq, Repr

/-- One action dict of a transition (workflow_engine.py, lines 271-299). -/
inductive WfAction where
  | setField : String → Value → WfAction
  | sendEmail : WfAction
  | webhook : String → WfAction
  | unknownAction : String → WfAction

/-- A WorkflowTransition row (engine_models.py, lines 131-152) with the
oracle outcome of eval-ing its condition expression over the document data
(none when the condition text is empty). -/
structure Transition where
  fromState : String
  toState : String
  allowedRoles : List String
  requireComment : Bool
  condition : Option (DocData → Except String Bool)
  actions : List WfAction

/-- The workflow engine context for one document: the current state name
held by DocumentWorkflowState, the document data, and the acting user. -/
structure WfCtx where
  currentState : String
  docData : DocData
  user : Option WfUser

/-- WorkflowEngine.can_transition (workflow_engine.py, lines 146-190):
current-state check, then role check (no declared roles or a superuser pass;
otherwise some shared group is required), then the optional condition, whose
evaluation exception is caught and reported as an invalid condition.  The
supplied comment plays no part in this check. -/
def canTransition (ctx : WfCtx) (t : Transition) : Bool × Option String :=
  if t.fromState ≠ ctx.currentState then
    (false, some ("Document is in state " ++ ctx.currentState ++ ", not " ++ t.fromState))
  else
    let roleRefusal : Option (Bool × Option String) :=
      if t.allowedRoles.isEmpty then none
      else
        match ctx.user with
        | none => some (false, some "User not authenticated")
        | some u =>
          if u.isSuperuser then none
          else if t.allowedRoles.any (fun r => u.groups.contains r) then none
          else some (false, some "User does not have the required role(s)")
    match roleRefusal with
    | some r => r
    | none =>
      match t.condition with
      | none => (true, none)
      | some f =>
        match f ctx.docData with
        | Except.ok true => (true, none)
        | Except.ok false => (false, some "Transition condition not met")
        | Except.error m => (false, some ("Invalid transition condition: " ++ m))

/-- Python truthiness of the optional comment argument: absent or empty. -/
def commentFalsy : Option String → Bool
  | none => true
  | some s => s == ""

/-- The workflow history dict appended by _log_transition (workflow_engine.py,
lines 256-269); changed_by and changed_at are omitted. -/
def historyEntry (fromS toS : String) (comment : Option String) :
    List (String × Prim) :=
  [("from_state", Prim.pStr fromS), ("to_state", Prim.pStr toS),
   ("comment", match comment with | none => Prim.pNull | some c => Prim.pStr c)]

/-- _log_transition (workflow_engine.py, lines 250-269): append the entry to
data at key workflow_history, creating the list when absent. -/
def appendHistory (d : DocData) (fromS toS : String) (comment : Option String) :
    DocData :=
  let prev : List (List (String × Prim)) :=
    match lookupKey d "workflow_history" with
    | some (Value.vDictList xs) => xs
    | _ => []
  setKey d "workflow_history" (Value.vDictList (prev ++ [historyEntry fromS toS comment]))

/-- One action of _execute_actions (workflow_engine.py, lines 276-299):
set_field writes the value only when the field is already a data key; email,
webhook and unknown actions change no data. -/
def applyAction (d : DocData) : WfAction → DocData
  | WfAction.setField nm v => if containsKey d nm then setKey d nm v else d
  | WfAction.sendEmail => d
  | WfAction.webhook _ => d
  | WfAction.unknownAction _ => d

/-- _execute_actions over the ordered action list. -/
def applyActions (d : DocData) (acts : List WfAction) : DocData :=
  acts.foldl applyAction d

/-- The exceptions raised by execute_transition (workflow_engine.py,
lines 214-221): WorkflowTransitionDenied for a failed eligibility check,
django ValidationError for a missing required comment. -/
inductive WfError where
  | transitionDenied : String → WfError
  | validationError : String → WfError
deriving DecidableEq, Repr

/-- WorkflowEngine.execute_transition (workflow_engine.py, lines 192-248):
re-check eligibility (WorkflowTransitionDenied on failure), then the
require_comment check (ValidationError when the comment is falsy), and only
then update the state, log the history entry into the document data and run
the declared actions.  The document.save() calls inside _log_transition and
_execute_actions re-enter the save pipeline modelled by savePipeline; the
returned pair is the new state name and the document data they persist. -/
def executeTransition (ctx : WfCtx) (t : Transition) (comment : Option String) :
    Except WfError (String × DocData) :=
  match canTransition ctx t with
  | (false, reason) =>
    Except.error (WfError.transitionDenied (reason.getD ""))
  | (true, _) =>
    if t.requireComment ∧ commentFalsy comment then
      Except.error (WfError.validationError "Comment is required for this transition")
    else
      let data1 := appendHistory ctx.docData ctx.currentState t.toState comment
      let data2 := applyActions data1 t.actions
      Except.ok (t.toState, data2)

/-- A Python exception from an attribute access. -/
inductive PyExn where
  | attributeError : String → PyExn
deriving DecidableEq, Repr

/-- The call version.verify_integrity() made by version_views.py at lines 259
and 469.  DocumentVersion (engine_models.py, lines 60-82) declares the
columns document, version_number, data_snapshot, changes, changed_by,
changed_at and comment and defines no verify_integrity method; no
integrity-hash column exists and create_version (version_engine.py,
lines 60-67) stores no checksum.  The attribute access therefore raises
AttributeError on every version row. -/
def verifyIntegrityCall (_v : Version) : Except PyExn Bool :=
  Except.error
    (PyExn.attributeError "DocumentVersion object has no attribute verify_integrity")

/-- An HTTP JSON response of the version views, reduced to its outcome kind,
message, and served snapshot where applicable. -/
inductive ViewResponse where
  | ok : DocData → ViewResponse
  | notFound : String → ViewResponse
  | badRequest : String → ViewResponse
  | serverError : String → ViewResponse
deriving DecidableEq, Repr

/-- get_version (version_views.py, lines 217-298): fetch document and
version, call verify_integrity — a False result answers 500 with the
tampering message, and any exception (here the AttributeError) is caught by
the enclosing handler answering the generic 500 — and only after a True
result serve the snapshot.  Authentication, permission checks and audit
logging are modelled out. -/
def getVersionView (st : Store) (vn : Int) : ViewResponse :=
  match st.doc with
  | none => ViewResponse.notFound "Document not found"
  | some _ =>
    match getVersionFromStore st vn with
    | none => ViewResponse.notFound ("Version " ++ toString vn ++ " not found")
    | some v =>
      match verifyIntegrityCall v with
      | Except.error _ =>
        ViewResponse.serverError "An error occurred. Please contact support."
      | Except.ok false =>
        ViewResponse.serverError
          "Version data integrity check failed. This version may have been tampered with."
      | Except.ok true => ViewResponse.ok v.dataSnapshot

/-- restore_version (version_views.py, lines 400-530), transaction.atomic:
fetch document and version, call verify_integrity — False answers 400 and
refuses, an exception is caught by the enclosing handler answering the
generic 500 — and only then run the engine restore.  The store is returned
alongside the response; error responses leave it untouched (rollback). -/
def restoreVersionView (fuel : Nat) (st : Store) (vn : Int) (hooks : List Hook)
    (comment : String) : ViewResponse × Store :=
  match st.doc with
  | none => (ViewResponse.notFound "Document not found", st)
  | some _ =>
    match getVersionFromStore st vn with
    | none => (ViewResponse.notFound ("Version " ++ toString vn ++ " not found"), st)
    | some v =>
      match verifyIntegrityCall v with
      | Except.error _ =>
        (ViewResponse.serverError "An error occurred. Please contact support.", st)
      | Except.ok false =>
        (ViewResponse.badRequest
          "Version integrity check failed. Cannot restore tampered version.", st)
      | Except.ok true =>
        match restoreVersion fuel st vn hooks comment with
        | Except.error _ =>
          (ViewResponse.serverError "An error occurred. Please contact support.", st)
        | Except.ok (st2, nv) => (ViewResponse.ok nv.dataSnapshot, st2)

/-- A concrete intact payload used by the concrete evidence below. -/
def exData1 : DocData := [("a", vInt 1)]

/-- The version row a first write of exData1 produces. -/
def exVersion1 : Version :=
  { versionNumber := 1, dataSnapshot := exData1,
    changes := { added := exData1, modified := [], removed := [] }, comment := "" }

/-- A store with one document (payload exData1, no schema fields, no hooks
configured) and its single version row. -/
def exStore : Store :=
  { fields := [],
    doc := some { data := exData1, versionNumber := 1, isDeleted := false },
    versions := [exVersion1] }

/-- A hook whose action always raises, hook type after_save. -/
def exFailAfterHook : Hook :=
  { id := 7, hookType := "after_save", actionType := "python", isActive := true,
    condition := none, run := fun _ => Except.error "boom" }

/-- A hook whose action always raises, hook type before_save. -/
def exFailBeforeHook : Hook :=
  { id := 8, hookType := "before_save", actionType := "python", isActive := true,
    condition := none, run := fun _ => Except.error "stop" }

/-- A hook whose action always raises, hook type before_delete. -/
def exFailDeleteHook : Hook :=
  { id := 9, hookType := "before_delete", actionType := "python", isActive := true,
    condition := none, run := fun _ => Except.error "keep" }

/-- A hook whose action always raises, hook type before_insert. -/
def exFailInsertHook : Hook :=
  { id := 10, hookType := "before_insert", actionType := "python", isActive := true,
    condition := none, run := fun _ => Except.error "no insert" }

/-- A before_save hook whose condition expression raises on every context
(for example one referencing an undefined name) and whose action would
always raise if it ever ran. -/
def exErrCondHook : Hook :=
  { id := 11, hookType := "before_save", actionType := "python", isActive := true,
    condition := some (fun _ => Except.error "name cond is not defined"),
    run := fun _ => Except.error "would abort" }

/-- A hook whose action always raises, hook type on_change. -/
def exFailChangeHook : Hook :=
  { id := 12, hookType := "on_change", actionType := "python", isActive := true,
    condition := none, run := fun _ => Except.error "observer down" }

/-- A transition out of state draft that requires a comment, open to every
role, with no condition. -/
def exTransition : Transition :=
  { fromState := "draft", toState := "review", allowedRoles := [],
    requireComment := true, condition := none, actions := [] }

/-- A workflow context sitting in state draft with a plain authenticated
user. -/
def exWfCtx : WfCtx :=
  { currentState := "draft", docData := [("a", vInt 1)],
    user := some { isSuperuser := false, groups := [] } }

/-- A payload deviates from one declared field only if the field is required
but absent, or its present value fails the type check of validate_data.
fieldAccepts holds exactly when neither happens; unknown payload keys play no
part in it. -/
def fieldAccepts (data : DocData) (f : Field) : Bool :=
  (!f.required || containsKey data f.name) &&
    (match lookupKey data f.name with
     | none => true
     | some v =>
       if f.ftype == "integer" && !(isInstanceInt v) then (pyIntCoerce v).isSome
       else !(f.ftype == "boolean" && !(isInstanceBool v)))

/-- Whether the document data carries a non-empty hook_failures history (the
record _log_hook_failure maintains). -/
def hasFailureLog (d : DocData) : Bool :=
  match lookupKey d "hook_failures" with
  | some (Value.vDictList (_ :: _)) => true
  | _ => false

/-- A required string field named x. -/
def exReqField : Field := { name := "x", ftype := "string", required := true }

/-- An optional integer field named n. -/
def exIntField : Field := { name := "n", ftype := "integer", required := false }

@[simp]
theorem lookupKey_nil {α : Type} (k : String) :
    lookupKey ([] : List (String × α)) k = none := rfl

theorem lookupKey_cons {α : Type} (k0 : String) (v0 : α) (d : List (String × α))
    (k : String) :
    lookupKey ((k0, v0) :: d) k = if k0 == k then some v0 else lookupKey d k := by
  cases h : k0 == k <;> simp [lookupKey, List.find?, h]

@[simp]
theorem containsKey_nil {α : Type} (k : String) :
    containsKey ([] : List (String × α)) k = false := rfl

theorem containsKey_cons {α : Type} (k0 : String) (v0 : α) (d : List (String × α))
    (k : String) :
    containsKey ((k0, v0) :: d) k = (k0 == k || containsKey d k) := by
  simp [containsKey]

theorem containsKey_eq_isSome {α : Type} (d : List (String × α)) (k : String) :
    containsKey d k = (lookupKey d k).isSome := by
  induction d with
  | nil => rfl
  | cons p rest ih =>
    obtain ⟨k0, v0⟩ := p
    cases h : k0 == k <;> simp [containsKey_cons, lookupKey_cons, h, ih]

theorem containsKey_iff_mem_map {α : Type} (d : List (String × α)) (k : String) :
    containsKey d k = true ↔ k ∈ d.map Prod.fst := by
  induction d with
  | nil => simp [containsKey_nil]
  | cons p rest ih =>
    obtain ⟨k0, v0⟩ := p
    cases h : k0 == k
    · have hne : k0 ≠ k := by
        intro he
        rw [he] at h
        simp at h
      simp [containsKey_cons, h, ih]
      intro he
      exact absurd he.symm hne
    · have he : k0 = k := eq_of_beq h
      simp [containsKey_cons, h, he]

theorem lookupKey_append {α : Type} (d1 d2 : List (String × α)) (k : String) :
    lookupKey (d1 ++ d2) k = (lookupKey d1 k).or (lookupKey d2 k) := by
  induction d1 with
  | nil => simp [lookupKey_nil]
  | cons p rest ih =>
    obtain ⟨k0, v0⟩ := p
    cases h : k0 == k <;> simp [lookupKey_cons, h, ih]

theorem lookupKey_updateKey_self {α : Type} (d : List (String × α)) (k : String)
    (v : α) (hc : containsKey d k = true) :
    lookupKey (updateKey d k v) k = some v := by
  induction d with
  | nil => simp [containsKey_nil] at hc
  | cons p rest ih =>
    obtain ⟨k0, v0⟩ := p
    cases h : k0 == k
    · have hc2 : containsKey rest k = true := by
        rw [containsKey_cons] at hc
        simpa [h] using hc
      simp only [updateKey, h, Bool.false_eq_true, if_false]
      rw [lookupKey_cons, if_neg (by simp [h]), ih hc2]
    · simp only [updateKey, h, if_true]
      rw [lookupKey_cons, if_pos (by simp)]

theorem lookupKey_updateKey_ne {α : Type} (d : List (String × α)) (k k2 : String)
    (v : α) (hne : k ≠ k2) :
    lookupKey (updateKey d k v) k2 = lookupKey d k2 := by
  induction d with
  | nil => rfl
  | cons p rest ih =>
    obtain ⟨k0, v0⟩ := p
    have hkk2 : (k == k2) = false := by
      cases hb : k == k2
      · rfl
      · exact absurd (eq_of_beq hb) hne
    cases h : k0 == k
    · simp only [updateKey, h, Bool.false_eq_true, if_false]
      rw [lookupKey_cons, lookupKey_cons, ih]
    · have he : k0 = k := eq_of_beq h
      subst he
      simp only [updateKey, h, if_true]
      rw [lookupKey_cons, if_neg (by simp [hkk2]), lookupKey_cons,
        if_neg (by simp [hkk2]), ih]

theorem containsKey_updateKey {α : Type} (d : List (String × α)) (k k2 : String)
    (v : α) :
    containsKey (updateKey d k v) k2 = containsKey d k2 := by
  induction d with
  | nil => rfl
  | cons p rest ih =>
    obtain ⟨k0, v0⟩ := p
    cases h : k0 == k
    · simp only [updateKey, h, Bool.false_eq_true, if_false]
      rw [containsKey_cons, containsKey_cons, ih]
    · have he : k0 = k := eq_of_beq h
      subst he
      simp only [updateKey, h, if_true]
      rw [containsKey_cons, containsKey_cons, ih]

theorem containsKey_setKey {α : Type} (d : List (String × α)) (k k2 : String)
    (v : α) (hc : containsKey d k = true) :
    containsKey (setKey d k v) k2 = containsKey d k2 := by
  unfold setKey
  rw [hc]
  simp only [if_true]
  exact containsKey_updateKey d k k2 v

theorem lookupKey_setKey_self {α : Type} (d : List (String × α)) (k : String)
    (v : α) (hc : containsKey d k = true) :
    lookupKey (setKey d k v) k = some v := by
  unfold setKey
  rw [hc]
  simp only [if_true]
  exact lookupKey_updateKey_self d k v hc

theorem lookupKey_setKey_ne {α : Type} (d : List (String × α)) (k k2 : String)
    (v : α) (hne : k ≠ k2) :
    lookupKey (setKey d k v) k2 = lookupKey d k2 := by
  unfold setKey
  by_cases hc : containsKey d k = true
  · rw [hc]
    simp only [if_true]
    exact lookupKey_updateKey_ne d k k2 v hne
  · rw [Bool.not_eq_true] at hc
    rw [hc]
    simp only [Bool.false_eq_true, if_false]
    rw [lookupKey_append]
    have h2 : (k == k2) = false := by
      cases hb : k == k2
      · rfl
      · exact absurd (eq_of_beq hb) hne
    cases hl : lookupKey d k2 <;> simp [lookupKey_cons, h2, hl]

theorem lookupKey_filter {α : Type} (q : String → Bool) (d : List (String × α))
    (k : String) :
    lookupKey (d.filter (fun p => q p.1)) k =
      if q k then lookupKey d k else none := by
  induction d with
  | nil => cases h : q k <;> simp [lookupKey_nil, h]
  | cons p rest ih =>
    obtain ⟨k0, v0⟩ := p
    cases h : k0 == k
    · cases hq : q k0 <;> simp [List.filter_cons, hq, lookupKey_cons, h, ih]
    · have he : k0 = k := eq_of_beq h
      subst he
      cases hq : q k0 <;> simp [List.filter_cons, hq, lookupKey_cons, ih]

theorem addedModified_fst_key_none (o : DocData) (n : List (String × Value))
    (k : String) (h : containsKey o k = true) :
    lookupKey (addedModified o n).1 k = none := by
  induction n with
  | nil => rfl
  | cons p rest ih =>
    obtain ⟨k0, nv⟩ := p
    simp only [addedModified]
    cases hl : lookupKey o k0
    · cases h0 : k0 == k
      · simp [lookupKey_cons, h0, ih]
      · have he : k0 = k := eq_of_beq h0
        subst he
        rw [containsKey_eq_isSome, hl] at h
        simp at h
    · rename_i ov
      by_cases heq : ov = nv
      all_goals simp [heq, ih]

theorem addedModified_fst_lookup (o : DocData) (n : List (String × Value))
    (k : String) :
    lookupKey (addedModified o n).1 k =
      if containsKey o k = true then none else lookupKey n k := by
  induction n with
  | nil => cases hc : containsKey o k <;> simp [addedModified, hc]
  | cons p rest ih =>
    obtain ⟨k0, nv⟩ := p
    cases hl : lookupKey o k0
    · simp only [addedModified, hl]
      cases h0 : k0 == k
      · have hs1 : lookupKey ((k0, nv) :: (addedModified o rest).1) k
            = lookupKey (addedModified o rest).1 k := by
          rw [lookupKey_cons, if_neg (by simp [h0])]
        have hs2 : lookupKey ((k0, nv) :: rest) k = lookupKey rest k := by
          rw [lookupKey_cons, if_neg (by simp [h0])]
        rw [hs1, hs2, ih]
      · have he : k0 = k := eq_of_beq h0
        subst he
        have hc : containsKey o k0 = false := by
          rw [containsKey_eq_isSome, hl]
          rfl
        have hs1 : lookupKey ((k0, nv) :: (addedModified o rest).1) k0
            = some nv := by
          rw [lookupKey_cons, if_pos (by simp)]
        have hs2 : lookupKey ((k0, nv) :: rest) k0 = some nv := by
          rw [lookupKey_cons, if_pos (by simp)]
        rw [hc, hs1, hs2]
        simp
    · rename_i ov
      simp only [addedModified, hl]
      cases h0 : k0 == k
      · have hs2 : lookupKey ((k0, nv) :: rest) k = lookupKey rest k := by
          rw [lookupKey_cons, if_neg (by simp [h0])]
        by_cases heq : ov = nv
        · simp only [heq, if_true]
          rw [hs2, ih]
        · simp only [if_neg heq]
          rw [hs2, ih]
      · have he : k0 = k := eq_of_beq h0
        subst he
        have hc : containsKey o k0 = true := by
          rw [containsKey_eq_isSome, hl]
          rfl
        have hs2 : lookupKey ((k0, nv) :: rest) k0 = some nv := by
          rw [lookupKey_cons, if_pos (by simp)]
        by_cases heq : ov = nv
        · simp only [heq, if_true]
          rw [hc, addedModified_fst_key_none o rest k0 hc]
          simp
        · simp only [if_neg heq]
          have hs1 : lookupKey ((k0, ov, nv) :: (addedModified o rest).2) k0
              = some (ov, nv) := by
            rw [lookupKey_cons, if_pos (by simp)]
          rw [hc, addedModified_fst_key_none o rest k0 hc]
          simp

theorem addedModified_snd_key_none (o : DocData) (n : List (String × Value))
    (k : String) (h : containsKey n k = false) :
    lookupKey (addedModified o n).2 k = none := by
  induction n with
  | nil => rfl
  | cons p rest ih =>
    obtain ⟨k0, nv⟩ := p
    rw [containsKey_cons] at h
    have h0 : (k0 == k) = false := by
      cases hb : k0 == k
      · rfl
      · rw [hb] at h
        simp at h
    have hrest : containsKey rest k = false := by
      cases hb : containsKey rest k
      · rfl
      · rw [hb] at h
        simp at h
    cases hl : lookupKey o k0
    · simp only [addedModified, hl]
      exact ih hrest
    · rename_i ov
      simp only [addedModified, hl]
      by_cases heq : ov = nv
      · simp only [heq, if_true]
        exact ih hrest
      · simp only [if_neg heq]
        rw [lookupKey_cons, if_neg (by simp [h0])]
        exact ih hrest

theorem addedModified_snd_lookup (o : DocData) (n : List (String × Value))
    (k : String) (hnd : (n.map Prod.fst).Nodup) :
    lookupKey (addedModified o n).2 k =
      (match lookupKey o k, lookupKey n k with
       | some ov, some nv => if ov = nv then none else some (ov, nv)
       | _, _ => none) := by
  induction n with
  | nil =>
    cases lookupKey o k <;> rfl
  | cons p rest ih =>
    obtain ⟨k0, nv⟩ := p
    rw [List.map_cons, List.nodup_cons] at hnd
    obtain ⟨hmem, hnd2⟩ := hnd
    cases h0 : k0 == k
    · have hs2 : lookupKey ((k0, nv) :: rest) k = lookupKey rest k := by
        rw [lookupKey_cons, if_neg (by simp [h0])]
      rw [hs2]
      cases hl : lookupKey o k0
      · simp only [addedModified, hl]
        exact ih hnd2
      · rename_i ov
        simp only [addedModified, hl]
        by_cases heq : ov = nv
        · simp only [heq, if_true]
          exact ih hnd2
        · simp only [if_neg heq]
          rw [lookupKey_cons, if_neg (by simp [h0])]
          exact ih hnd2
    · have he : k0 = k := eq_of_beq h0
      subst he
      have hcrest : containsKey rest k0 = false := by
        cases hb : containsKey rest k0
        · rfl
        · exact absurd ((containsKey_iff_mem_map rest k0).mp hb) hmem
      have hs2 : lookupKey ((k0, nv) :: rest) k0 = some nv := by
        rw [lookupKey_cons, if_pos (by simp)]
      rw [hs2]
      cases hl : lookupKey o k0
      · simp only [addedModified, hl]
        rw [addedModified_snd_key_none o rest k0 hcrest]
      · rename_i ov
        simp only [addedModified, hl]
        by_cases heq : ov = nv
        · simp only [heq, if_true]
          rw [addedModified_snd_key_none o rest k0 hcrest]
        · simp only [if_neg heq]
          rw [lookupKey_cons, if_pos (by simp)]

/-- C5: the computed diff contains exactly the spec-stated added, modified
and removed entries.  For dict-shaped inputs (no duplicate keys in the new
payload) every key of the diff parts is characterised through lookup, and
the concrete example of the claim evaluates as stated.  In the source each
modified entry is the dict with keys old and new, embedded here as the pair
of the old and the new value. -/
theorem C5_diff_characterization :
    (∀ oldData newData : DocData, (newData.map Prod.fst).Nodup → ∀ k : String,
      (lookupKey (calculateChanges oldData newData).added k =
        if containsKey oldData k = true then none else lookupKey newData k)
      ∧ (lookupKey (calculateChanges oldData newData).modified k =
          (match lookupKey oldData k, lookupKey newData k with
           | some ov, some nv => if ov = nv then none else some (ov, nv)
           | _, _ => none))
      ∧ (lookupKey (calculateChanges oldData newData).removed k =
          if containsKey newData k = true then none else lookupKey oldData k)) ∧
    calculateChanges [("a", vInt 1), ("b", vInt 2)] [("b", vInt 3), ("c", vInt 4)] =
      { added := [("c", vInt 4)],
        modified := [("b", vInt 2, vInt 3)],
        removed := [("a", vInt 1)] } := by
  constructor
  · intro oldData newData hnd k
    refine ⟨?_, ?_, ?_⟩
    · exact addedModified_fst_lookup oldData newData k
    · exact addedModified_snd_lookup oldData newData k hnd
    · show lookupKey (oldData.filter (fun p => !(containsKey newData p.1))) k = _
      rw [lookupKey_filter (fun key => !(containsKey newData key)) oldData k]
      cases hc : containsKey newData k <;> simp [hc]
  · rfl

/-- Witness for C5 at the concrete maps of the claim. -/
theorem C5_diff_characterization_witness :
    lookupKey (calculateChanges [("a", vInt 1), ("b", vInt 2)]
        [("b", vInt 3), ("c", vInt 4)]).modified "b" = some (vInt 2, vInt 3) := by
  have h := ((C5_diff_characterization.1 [("a", vInt 1), ("b", vInt 2)]
    [("b", vInt 3), ("c", vInt 4)] (by decide) "b").2).1
  exact h.trans (by rfl)

theorem validateField_required_absent (d : DocData) (f : Field)
    (hreq : f.required = true) (habs : containsKey d f.name = false) :
    validateField d f = Except.error ("Field " ++ f.name ++ " is required") := by
  unfold validateField
  rw [if_pos ⟨hreq, by rw [habs]; rfl⟩]

theorem pyIntCoerce_str_of_not_int (v : Value) (n : Int)
    (hni : isInstanceInt v = false) (hc : pyIntCoerce v = some n) :
    ∃ s, v = vStr s ∧ pyIntOfString s = some n := by
  cases v with
  | prim p =>
    cases p with
    | pNull => simp [pyIntCoerce] at hc
    | pBool b => simp [isInstanceInt] at hni
    | pInt m => simp [isInstanceInt] at hni
    | pStr s => exact ⟨s, rfl, hc⟩
  | vList xs => simp [pyIntCoerce] at hc
  | vDict kvs => simp [pyIntCoerce] at hc
  | vDictList xs => simp [pyIntCoerce] at hc

theorem validateField_ok_cases (d : DocData) (f : Field) (d2 : DocData)
    (h : validateField d f = Except.ok d2) :
    d2 = d ∨ ∃ s n, lookupKey d f.name = some (vStr s) ∧ pyIntOfString s = some n ∧
      d2 = setKey d f.name (vInt n) := by
  unfold validateField at h
  split at h
  · simp at h
  · split at h
    · left
      injection h with h
      exact h.symm
    · rename_i v hlk
      split at h
      · rename_i hint
        split at h
        · rename_i n hn
          right
          obtain ⟨s, hs, hps⟩ := pyIntCoerce_str_of_not_int v n (by
            have := hint.2
            cases hb : isInstanceInt v
            · rfl
            · rw [hb] at this
              simp at this) hn
          refine ⟨s, n, ?_, hps, ?_⟩
          · rw [hlk, hs]
          · injection h with h
            exact h.symm
        · simp at h
      · split at h
        · simp at h
        · left
          injection h with h
          exact h.symm

theorem validateField_ok_contains (d : DocData) (f : Field) (d2 : DocData)
    (h : validateField d f = Except.ok d2) (k : String) :
    containsKey d2 k = containsKey d k := by
  rcases validateField_ok_cases d f d2 h with he | ⟨s, n, hlk, _, he⟩
  · rw [he]
  · rw [he]
    exact containsKey_setKey d f.name k (vInt n)
      (by rw [containsKey_eq_isSome, hlk]; rfl)

theorem validateField_ok_lookup_ne (d : DocData) (f : Field) (d2 : DocData)
    (h : validateField d f = Except.ok d2) (k : String) (hne : k ≠ f.name) :
    lookupKey d2 k = lookupKey d k := by
  rcases validateField_ok_cases d f d2 h with he | ⟨s, n, hlk, _, he⟩
  · rw [he]
  · rw [he]
    exact lookupKey_setKey_ne d f.name k (vInt n) (fun hx => hne hx.symm)

theorem validateField_error_cases (d : DocData) (f : Field) (e : String)
    (h : validateField d f = Except.error e) :
    (f.required = true ∧ containsKey d f.name = false) ∨
    (∃ v, lookupKey d f.name = some v ∧
      (f.ftype == "integer" && !(isInstanceInt v)) = true ∧ pyIntCoerce v = none) ∨
    (∃ v, lookupKey d f.name = some v ∧
      (f.ftype == "integer" && !(isInstanceInt v)) = false ∧
      (f.ftype == "boolean" && !(isInstanceBool v)) = true) := by
  unfold validateField at h
  split at h
  · rename_i hx
    left
    refine ⟨hx.1, ?_⟩
    have hb := hx.2
    cases hc : containsKey d f.name
    · rfl
    · rw [hc] at hb
      simp at hb
  · rename_i hx
    split at h
    · simp at h
    · rename_i v hlk
      split at h
      · rename_i hint
        split at h
        · simp at h
        · rename_i hcn
          right
          left
          refine ⟨v, hlk, ?_, hcn⟩
          rw [Bool.and_eq_true]
          exact ⟨hint.1, hint.2⟩
      · rename_i hint
        split at h
        · rename_i hbool
          right
          right
          refine ⟨v, hlk, ?_, ?_⟩
          · cases hb : (f.ftype == "integer" && !(isInstanceInt v))
            · rfl
            · rw [Bool.and_eq_true] at hb
              exact absurd ⟨hb.1, hb.2⟩ hint
          · rw [Bool.and_eq_true]
            exact ⟨hbool.1, hbool.2⟩
        · simp at h

theorem validateField_of_accepts (d : DocData) (f : Field)
    (h : fieldAccepts d f = true) : ∃ d2, validateField d f = Except.ok d2 := by
  cases hres : validateField d f with
  | ok d2 => exact ⟨d2, rfl⟩
  | error e =>
    exfalso
    unfold fieldAccepts at h
    rw [Bool.and_eq_true] at h
    obtain ⟨h1, h2⟩ := h
    rcases validateField_error_cases d f e hres with
      ⟨hr, hcf⟩ | ⟨v, hlk, hint, hcn⟩ | ⟨v, hlk, hint, hbool⟩
    · rw [hr, hcf] at h1
      simp at h1
    · rw [hlk] at h2
      simp only [hint, if_true] at h2
      rw [hcn] at h2
      simp at h2
    · rw [hlk] at h2
      simp only [hint, Bool.false_eq_true, if_false] at h2
      rw [hbool] at h2
      simp at h2

theorem validateField_int_coerce (d : DocData) (f : Field) (s : String) (n : Int)
    (hft : f.ftype = "integer") (hlk : lookupKey d f.name = some (vStr s))
    (hp : pyIntOfString s = some n) :
    validateField d f = Except.ok (setKey d f.name (vInt n)) := by
  have hcf : containsKey d f.name = true := by
    rw [containsKey_eq_isSome, hlk]
    rfl
  have hps : pyIntCoerce (Value.prim (Prim.pStr s)) = some n := hp
  simp [validateField, hcf, hlk, hft, vStr, isInstanceInt, hps]

theorem validateField_int_reject (d : DocData) (f : Field) (v : Value)
    (hft : f.ftype = "integer") (hlk : lookupKey d f.name = some v)
    (hni : isInstanceInt v = false) (hnc : pyIntCoerce v = none) :
    validateField d f =
      Except.error ("Field " ++ f.name ++ " must be an integer") := by
  have hcf : containsKey d f.name = true := by
    rw [containsKey_eq_isSome, hlk]
    rfl
  simp [validateField, hcf, hlk, hft, hni, hnc]

theorem validateData_lookup_preserved (fields : List Field) (d d2 : DocData)
    (k : String) (h : validateData fields d = Except.ok d2)
    (hk : ∀ g ∈ fields, g.name ≠ k) : lookupKey d2 k = lookupKey d k := by
  induction fields generalizing d with
  | nil =>
    injection h with h
    rw [h]
  | cons g rest ih =>
    unfold validateData at h
    cases hvf : validateField d g with
    | error e => rw [hvf] at h; simp at h
    | ok dm =>
      rw [hvf] at h
      have h1 := validateField_ok_lookup_ne d g dm hvf k
        (fun hx => hk g (List.mem_cons_self g rest) hx.symm)
      rw [ih dm h (fun g2 hg2 => hk g2 (List.mem_cons_of_mem g hg2)), h1]

/-- C6: validate_data rejects a payload missing a required field; a payload
whose declared fields all pass (whatever unknown extra keys it carries) is
accepted; a numeric-looking string in an integer field is coerced in place to
an integer in the payload the validation returns for persistence; and a value
of an integer field that cannot be coerced is rejected.  Schema field names
and payload keys are dict-shaped (no duplicates) where needed. -/
theorem C6_validate_data :
    (∀ (fields : List Field) (data : DocData) (f : Field),
      f ∈ fields → f.required = true → containsKey data f.name = false →
      ∃ e, validateData fields data = Except.error e) ∧
    (∀ (fields : List Field) (data : DocData),
      (fields.map Field.name).Nodup →
      (∀ f ∈ fields, fieldAccepts data f = true) →
      ∃ d2, validateData fields data = Except.ok d2) ∧
    (∀ (fields : List Field) (data : DocData) (f : Field) (s : String) (n : Int)
      (d2 : DocData),
      (fields.map Field.name).Nodup → f ∈ fields → f.ftype = "integer" →
      lookupKey data f.name = some (vStr s) → pyIntOfString s = some n →
      validateData fields data = Except.ok d2 →
      lookupKey d2 f.name = some (vInt n)) ∧
    (∀ (fields : List Field) (data : DocData) (f : Field) (v : Value),
      f ∈ fields → f.ftype = "integer" →
      lookupKey data f.name = some v → isInstanceInt v = false →
      pyIntCoerce v = none →
      ∃ e, validateData fields data = Except.error e) := by
  refine ⟨?_, ?_, ?_, ?_⟩
  · intro fields data f hf hreq habs
    induction fields generalizing data with
    | nil => cases hf
    | cons g rest ih =>
      rcases List.mem_cons.mp hf with he | hmem
      · subst he
        exact ⟨_, by unfold validateData; rw [validateField_required_absent data f hreq habs]⟩
      · unfold validateData
        cases hvf : validateField data g with
        | error e => exact ⟨e, rfl⟩
        | ok dm =>
          have habs2 : containsKey dm f.name = false := by
            rw [validateField_ok_contains data g dm hvf f.name, habs]
          exact ih dm hmem habs2
  · intro fields data hnd hacc
    induction fields generalizing data with
    | nil => exact ⟨data, rfl⟩
    | cons g rest ih =>
      rw [List.map_cons, List.nodup_cons] at hnd
      obtain ⟨hg, hnd2⟩ := hnd
      obtain ⟨dm, hvf⟩ := validateField_of_accepts data g
        (hacc g (List.mem_cons_self g rest))
      have hacc2 : ∀ f ∈ rest, fieldAccepts dm f = true := by
        intro f hf
        have hne : f.name ≠ g.name := by
          intro hx
          exact hg (hx ▸ List.mem_map_of_mem Field.name hf)
        have hc := validateField_ok_contains data g dm hvf f.name
        have hl := validateField_ok_lookup_ne data g dm hvf f.name hne
        have := hacc f (List.mem_cons_of_mem g hf)
        unfold fieldAccepts at this ⊢
        rw [hc, hl]
        exact this
      obtain ⟨d2, hrest⟩ := ih dm hnd2 hacc2
      exact ⟨d2, by unfold validateData; rw [hvf]; exact hrest⟩
  · intro fields data f s n d2 hnd hf hft hlk hp hval
    induction fields generalizing data with
    | nil => cases hf
    | cons g rest ih =>
      rw [List.map_cons, List.nodup_cons] at hnd
      obtain ⟨hg, hnd2⟩ := hnd
      unfold validateData at hval
      cases hvf : validateField data g with
      | error e => rw [hvf] at hval; simp at hval
      | ok dm =>
        rw [hvf] at hval
        rcases List.mem_cons.mp hf with he | hmem
        · subst he
          have hvf2 := validateField_int_coerce data f s n hft hlk hp
          rw [hvf2] at hvf
          injection hvf with hdm
          have hcf : containsKey data f.name = true := by
            rw [containsKey_eq_isSome, hlk]
            rfl
          have hval2 := validateData_lookup_preserved rest dm d2 f.name hval
            (fun g2 hg2 => by
              intro hx
              exact hg (hx ▸ List.mem_map_of_mem Field.name hg2))
          rw [hval2, ← hdm, lookupKey_setKey_self data f.name (vInt n) hcf]
        · have hne : f.name ≠ g.name := by
            intro hx
            exact hg (hx ▸ List.mem_map_of_mem Field.name hmem)
          have hl := validateField_ok_lookup_ne data g dm hvf f.name hne
          exact ih dm hnd2 hmem (hl.trans hlk) hval
  · intro fields data f v hf hft hlk hni hnc
    induction fields generalizing data with
    | nil => cases hf
    | cons g rest ih =>
      rcases List.mem_cons.mp hf with he | hmem
      · subst he
        refine ⟨"Field " ++ f.name ++ " must be an integer", ?_⟩
        unfold validateData
        rw [validateField_int_reject data f v hft hlk hni hnc]
      · unfold validateData
        cases hvf : validateField data g with
        | error e => exact ⟨e, rfl⟩
        | ok dm =>
          by_cases hne : f.name = g.name
          · rcases validateField_ok_cases data g dm hvf with he2 | ⟨s2, n2, hlk2, hps2, he2⟩
            · have hlk3 : lookupKey dm f.name = some v := by
                rw [he2]
                exact hlk
              exact ih dm hmem hlk3
            · exfalso
              rw [← hne] at hlk2
              rw [hlk] at hlk2
              injection hlk2 with hv2
              have hx : pyIntCoerce v = some n2 := by
                rw [hv2]
                exact hps2
              rw [hnc] at hx
              exact Option.noConfusion hx
          · have hl := validateField_ok_lookup_ne data g dm hvf f.name hne
            exact ih dm hmem (hl.trans hlk)

/-- Witness for C6: a missing required field rejects; a payload with an
unknown extra key accepts; the numeric-looking string coerces in place; a
non-numeric string in an integer field rejects. -/
theorem C6_validate_data_witness :
    (∃ e, validateData [exReqField] [] = Except.error e) ∧
    (∃ d2, validateData [exIntField] [("n", vStr "42"), ("z", vBool true)] =
      Except.ok d2) ∧
    lookupKey [("n", vInt 42)] "n" = some (vInt 42) ∧
    (∃ e, validateData [exIntField] [("n", vStr "abc")] = Except.error e) := by
  refine ⟨?_, ?_, ?_, ?_⟩
  · exact C6_validate_data.1 [exReqField] [] exReqField
      (List.mem_cons_self exReqField []) rfl rfl
  · exact C6_validate_data.2.1 [exIntField] [("n", vStr "42"), ("z", vBool true)]
      (by decide)
      (by
        intro f hf
        rw [List.mem_singleton] at hf
        subst hf
        rfl)
  · exact C6_validate_data.2.2.1 [exIntField] [("n", vStr "42")] exIntField
      "42" 42 [("n", vInt 42)] (by decide) (List.mem_cons_self exIntField [])
      rfl rfl rfl rfl
  · exact C6_validate_data.2.2.2 [exIntField] [("n", vStr "abc")] exIntField
      (vStr "abc") (List.mem_cons_self exIntField []) rfl rfl rfl rfl

theorem conditionMet_false_of_error (h : Hook) (f : DocData → Except String Bool)
    (hc : h.condition = some f) (hf : ∀ x, ∃ m, f x = Except.error m)
    (d : DocData) : conditionMet h.condition d = false := by
  rw [hc]
  show (match f d with
    | Except.ok b => b
    | Except.error _ => false) = false
  obtain ⟨m, hm⟩ := hf d
  rw [hm]

theorem runHooksList_nil (ht : String) (st : HookRun) :
    runHooksList ht [] st = Except.ok st := rfl

theorem runHooksList_cons (ht : String) (h : Hook) (rest : List Hook)
    (st : HookRun) :
    runHooksList ht (h :: rest) st =
      if !(conditionMet h.condition st.data) then runHooksList ht rest st
      else
        match h.run st.data with
        | Except.ok newData =>
          runHooksList ht rest
            { data := newData
              results := st.results ++
                [{ hookId := h.id, hookType := ht, actionType := h.actionType,
                   success := true, errorMsg := none }] }
        | Except.error msg =>
          if pyStartsWith ht "before_" = true then
            Except.error ("Critical hook failed: " ++ hookErrorMsg msg)
          else
            runHooksList ht rest
              { data := logHookFailure st.data h (hookErrorMsg msg)
                results := st.results ++
                  [{ hookId := h.id, hookType := ht, actionType := h.actionType,
                     success := false, errorMsg := some (hookErrorMsg msg) }] } := by
  rfl

theorem runHooksList_skip (ht : String) (l1 l2 : List Hook) (h : Hook)
    (hcf : ∀ d, conditionMet h.condition d = false) (st : HookRun) :
    runHooksList ht (l1 ++ h :: l2) st = runHooksList ht (l1 ++ l2) st := by
  induction l1 generalizing st with
  | nil =>
    show runHooksList ht (h :: l2) st = runHooksList ht l2 st
    rw [runHooksList_cons, if_pos (by rw [hcf st.data]; rfl)]
  | cons h0 rest ih =>
    show runHooksList ht (h0 :: (rest ++ h :: l2)) st =
      runHooksList ht (h0 :: (rest ++ l2)) st
    rw [runHooksList_cons, runHooksList_cons]
    cases hcm : conditionMet h0.condition st.data
    · rw [if_pos (show (!false) = true from rfl),
        if_pos (show (!false) = true from rfl)]
      exact ih st
    · rw [if_neg (by simp), if_neg (by simp)]
      cases hr : h0.run st.data
      · rename_i msg
        cases hs : pyStartsWith ht "before_"
        · simp only [hs, Bool.false_eq_true, if_false]
          exact ih _
        · simp only [hs, if_true]
      · exact ih _

/-- C10: a hook whose trigger condition expression raises during evaluation
is silently skipped exactly as if the condition were false: the dispatch over
the hook list equals the dispatch with the hook removed (so it produces no
execution result, records no failure and never aborts), for every hook type
including the before_* types; in particular the hook alone yields a clean
empty run. -/
theorem C10_condition_error_skips_hook :
    ∀ (hookType : String) (hooks1 hooks2 : List Hook) (h : Hook)
      (f : DocData → Except String Bool) (d : DocData),
      h.condition = some f →
      (∀ x, ∃ m, f x = Except.error m) →
      executeHooks hookType (hooks1 ++ h :: hooks2) d =
        executeHooks hookType (hooks1 ++ hooks2) d ∧
      executeHooks hookType [h] d = Except.ok { data := d, results := [] } := by
  intro ht hooks1 hooks2 h f d hc hf
  have hcf := conditionMet_false_of_error h f hc hf
  constructor
  · unfold executeHooks selectHooks
    rw [List.filter_append, List.filter_append, List.filter_cons]
    by_cases hp : (h.hookType == ht && h.isActive) = true
    · rw [if_pos hp]
      exact runHooksList_skip ht _ _ h hcf _
    · rw [if_neg hp]
  · unfold executeHooks selectHooks
    rw [List.filter_cons]
    by_cases hp : (h.hookType == ht && h.isActive) = true
    · rw [if_pos hp]
      show runHooksList ht ([] ++ h :: []) { data := d, results := [] } = _
      rw [runHooksList_skip ht [] [] h hcf]
      rfl
    · rw [if_neg hp]
      rfl

/-- Witness for C10: the erroring-condition before_save hook alone runs as a
clean empty dispatch. -/
theorem C10_condition_error_skips_hook_witness :
    executeHooks "before_save" [exErrCondHook] [("a", vInt 1)] =
      Except.ok { data := [("a", vInt 1)], results := [] } :=
  (C10_condition_error_skips_hook "before_save" [] [] exErrCondHook
    (fun _ => Except.error "name cond is not defined") [("a", vInt 1)] rfl
    (fun _ => ⟨"name cond is not defined", rfl⟩)).2

/-- C7 counterexample: for a require_comment transition attempted without a
comment from its own from-state, can_transition reports it CAN run (the
comment plays no part in it), and execute_transition raises django
ValidationError, not WorkflowTransitionDenied — refuting the claim as
stated. -/
theorem C7_counterexample :
    canTransition exWfCtx exTransition = (true, none) ∧
    executeTransition exWfCtx exTransition none =
      Except.error (WfError.validationError "Comment is required for this transition") := by
  exact ⟨rfl, rfl⟩

/-- C7 (amended): attempting a require_comment transition without a supplied
comment always raises — as WorkflowTransitionDenied when the eligibility
check fails anyway, and otherwise as django ValidationError from the comment
check — and the refusal happens before the workflow state or the document
data is touched, so both are unchanged; can_transition itself never considers
the comment. -/
theorem C7_require_comment_refusal :
    ∀ (ctx : WfCtx) (t : Transition) (comment : Option String),
      t.requireComment = true → commentFalsy comment = true →
      (∃ e, executeTransition ctx t comment = Except.error e) ∧
      ((canTransition ctx t).1 = true →
        executeTransition ctx t comment =
          Except.error (WfError.validationError "Comment is required for this transition")) := by
  intro ctx t comment hrc hcf
  rcases hpair : canTransition ctx t with ⟨b, reason⟩
  unfold executeTransition
  rw [hpair]
  cases b
  · constructor
    · exact ⟨WfError.transitionDenied (reason.getD ""), rfl⟩
    · intro hx
      simp at hx
  · have hcond : t.requireComment = true ∧ commentFalsy comment = true := ⟨hrc, hcf⟩
    constructor
    · refine ⟨WfError.validationError "Comment is required for this transition", ?_⟩
      rw [if_pos hcond]
    · intro _
      rw [if_pos hcond]

/-- Witness for C7 (amended) at the concrete transition. -/
theorem C7_require_comment_refusal_witness :
    ∃ e, executeTransition exWfCtx exTransition none = Except.error e :=
  (C7_require_comment_refusal exWfCtx exTransition none rfl rfl).1

/-- C1: the integrity verification the claim describes is unimplemented.
DocumentVersion stores no checksum and has no verify_integrity method, so
serving or restoring ANY version — the intact exVersion1 included — hits an
AttributeError that the view handlers turn into the generic 500 error; the
snapshot is never served and the restore never runs, but not because a
recomputed checksum mismatched. -/
theorem C1_integrity_check_unimplemented :
    getVersionView exStore 1 =
      ViewResponse.serverError "An error occurred. Please contact support." ∧
    restoreVersionView 5 exStore 1 [] "" =
      (ViewResponse.serverError "An error occurred. Please contact support.",
        exStore) := by
  exact ⟨rfl, rfl⟩

/-- C8: document_delete performs a hard delete, not the soft delete the claim
states: the row (and, by cascade, its versions) is removed outright, and no
is_deleted flag or deleted_at timestamp is ever written. -/
theorem C8_delete_is_hard_delete :
    deleteDocument exStore [] =
      Except.ok { fields := [], doc := none, versions := [] } ∧
    exStore.doc =
      some { data := exData1, versionNumber := 1, isDeleted := false } := by
  exact ⟨rfl, rfl⟩

/-- C3: a single document write does not create exactly one version.  With
recursion budget 3, one update save of the no-hook document creates THREE new
version rows (numbers 2, 3, 4 on top of the pre-existing 1), because
create_version saves the document to mirror the version number and that save
re-fires post_save, which calls create_version again. -/
theorem C3_one_save_creates_three_versions :
    Except.map (fun out => out.store.versions.length)
        (savePipeline 3 false exStore [("a", vInt 2)] 1 [] "") = Except.ok 4 ∧
    Except.map (fun out => out.store.versions.map (fun v => v.versionNumber))
        (savePipeline 3 false exStore [("a", vInt 2)] 1 [] "") =
      Except.ok [1, 2, 3, 4] ∧
    exStore.versions.length = 1 := by
  exact ⟨rfl, rfl, rfl⟩

theorem lookupKey_setKey_self_always {α : Type} (d : List (String × α))
    (k : String) (v : α) : lookupKey (setKey d k v) k = some v := by
  by_cases hc : containsKey d k = true
  · exact lookupKey_setKey_self d k v hc
  · rw [Bool.not_eq_true] at hc
    unfold setKey
    rw [hc]
    simp only [Bool.false_eq_true, if_false]
    rw [lookupKey_append]
    have hl : lookupKey d k = none := by
      rw [containsKey_eq_isSome] at hc
      cases hx : lookupKey d k
      · rfl
      · rw [hx] at hc
        simp at hc
    rw [hl, lookupKey_cons]
    simp

theorem trimmed_ne_nil (xs : List (List (String × Prim))) (e : List (String × Prim)) :
    (if (xs ++ [e]).length > 10 then (xs ++ [e]).drop ((xs ++ [e]).length - 10)
     else xs ++ [e]) ≠ [] := by
  by_cases hlen : (xs ++ [e]).length > 10
  · rw [if_pos hlen]
    apply List.ne_nil_of_length_pos
    rw [List.length_drop]
    omega
  · rw [if_neg hlen]
    simp

theorem hasFailureLog_logHookFailure (d : DocData) (h : Hook) (msg : String) :
    hasFailureLog (logHookFailure d h msg) = true := by
  unfold logHookFailure hasFailureLog
  rw [lookupKey_setKey_self_always]
  obtain ⟨x, xs2, hx⟩ := List.exists_cons_of_ne_nil (trimmed_ne_nil
    (match lookupKey d "hook_failures" with
     | some (Value.vDictList xs) => xs
     | _ => []) (failureEntry h msg))
  rw [hx]

theorem executeHooks_eq (ht : String) (hooks : List Hook) (d : DocData) :
    executeHooks ht hooks d =
      runHooksList ht (selectHooks ht hooks) { data := d, results := [] } := rfl

theorem mem_selectHooks (ht : String) (hooks : List Hook) (h : Hook)
    (hmem : h ∈ hooks) (hht : h.hookType = ht) (hact : h.isActive = true) :
    h ∈ selectHooks ht hooks := by
  apply List.mem_filter.mpr
  refine ⟨hmem, ?_⟩
  rw [hht, hact]
  simp

theorem mem_of_mem_selectHooks (ht : String) (hooks : List Hook) (g : Hook)
    (hg : g ∈ selectHooks ht hooks) : g ∈ hooks :=
  (List.mem_filter.mp hg).1

theorem selectHooks_nil_before (ht : String) (hooks : List Hook)
    (hts : pyStartsWith ht "before_" = true)
    (hnb : ∀ g ∈ hooks, pyStartsWith g.hookType "before_" = false) :
    selectHooks ht hooks = [] := by
  unfold selectHooks
  rw [List.filter_eq_nil_iff]
  intro g hg hp
  rw [Bool.and_eq_true] at hp
  have hgt : g.hookType = ht := eq_of_beq hp.1
  have hx := hnb g hg
  rw [hgt, hts] at hx
  exact Bool.noConfusion hx

theorem runHooksList_results_prefix (ht : String) (hs : List Hook) (st : HookRun)
    (out : HookRun) (h : runHooksList ht hs st = Except.ok out) :
    ∃ suffix, out.results = st.results ++ suffix := by
  induction hs generalizing st with
  | nil =>
    rw [runHooksList_nil] at h
    injection h with h
    rw [← h]
    exact ⟨[], by simp⟩
  | cons h0 rest ih =>
    rw [runHooksList_cons] at h
    by_cases hcm : (!(conditionMet h0.condition st.data)) = true
    · rw [if_pos hcm] at h
      exact ih st h
    · rw [if_neg hcm] at h
      cases hr : h0.run st.data with
      | error msg =>
        simp only [hr] at h
        by_cases hbs : pyStartsWith ht "before_" = true
        · rw [if_pos hbs] at h
          exact absurd h (by simp)
        · rw [if_neg hbs] at h
          obtain ⟨suf, hsuf⟩ := ih _ h
          apply Exists.intro
          rw [hsuf, List.append_assoc]
      | ok newData =>
        simp only [hr] at h
        obtain ⟨suf, hsuf⟩ := ih _ h
        apply Exists.intro
        rw [hsuf, List.append_assoc]

theorem runHooksList_ok_not_before (ht : String)
    (hbs : pyStartsWith ht "before_" = false) (hs : List Hook) (st : HookRun) :
    ∃ out, runHooksList ht hs st = Except.ok out := by
  induction hs generalizing st with
  | nil => exact ⟨st, rfl⟩
  | cons h0 rest ih =>
    rw [runHooksList_cons]
    by_cases hcm : (!(conditionMet h0.condition st.data)) = true
    · rw [if_pos hcm]
      exact ih st
    · rw [if_neg hcm]
      cases hr : h0.run st.data with
      | error msg =>
        simp only [hr, hbs, Bool.false_eq_true, if_false]
        exact ih _
      | ok newData =>
        simp only [hr]
        exact ih _

theorem runHooksList_benign (ht : String) (hs : List Hook) (st : HookRun)
    (hb : ∀ g ∈ hs, ∀ d, g.run d = Except.ok d) :
    ∃ rs, runHooksList ht hs st = Except.ok { data := st.data, results := rs } := by
  induction hs generalizing st with
  | nil => exact ⟨st.results, by rw [runHooksList_nil]⟩
  | cons h0 rest ih =>
    rw [runHooksList_cons]
    by_cases hcm : (!(conditionMet h0.condition st.data)) = true
    · rw [if_pos hcm]
      exact ih st (fun g hg => hb g (List.mem_cons_of_mem h0 hg))
    · rw [if_neg hcm]
      simp only [hb h0 (List.mem_cons_self h0 rest) st.data]
      exact ih _ (fun g hg => hb g (List.mem_cons_of_mem h0 hg))

theorem runHooksList_error_of_failing (ht : String)
    (hbs : pyStartsWith ht "before_" = true) (hs : List Hook) (h : Hook)
    (hmem : h ∈ hs) (hcond : ∀ d, conditionMet h.condition d = true)
    (hfail : ∀ d, ∃ m, h.run d = Except.error m) (st : HookRun) :
    ∃ e, runHooksList ht hs st = Except.error e := by
  induction hs generalizing st with
  | nil => cases hmem
  | cons h0 rest ih =>
    rw [runHooksList_cons]
    rcases List.mem_cons.mp hmem with he | hmem2
    · subst he
      rw [if_neg (by rw [hcond st.data]; simp)]
      obtain ⟨m, hm⟩ := hfail st.data
      simp only [hm, hbs, if_true]
      exact ⟨_, rfl⟩
    · by_cases hcm : (!(conditionMet h0.condition st.data)) = true
      · rw [if_pos hcm]
        exact ih hmem2 st
      · rw [if_neg hcm]
        cases hr : h0.run st.data with
        | error msg =>
          simp only [hr, hbs, if_true]
          exact ⟨_, rfl⟩
        | ok newData =>
          simp only [hr]
          exact ih hmem2 _

theorem runHooksList_log_preserved (ht : String) (hs : List Hook) (st : HookRun)
    (out : HookRun)
    (idf : ∀ g ∈ hs, (∀ d, g.run d = Except.ok d) ∨ (∀ d, ∃ m, g.run d = Except.error m))
    (h : runHooksList ht hs st = Except.ok out)
    (hlog : hasFailureLog st.data = true) : hasFailureLog out.data = true := by
  induction hs generalizing st with
  | nil =>
    rw [runHooksList_nil] at h
    injection h with h
    rw [← h]
    exact hlog
  | cons h0 rest ih =>
    rw [runHooksList_cons] at h
    by_cases hcm : (!(conditionMet h0.condition st.data)) = true
    · rw [if_pos hcm] at h
      exact ih st (fun g hg => idf g (List.mem_cons_of_mem h0 hg)) h hlog
    · rw [if_neg hcm] at h
      rcases idf h0 (List.mem_cons_self h0 rest) with hid | hfl
      · simp only [hid st.data] at h
        exact ih _ (fun g hg => idf g (List.mem_cons_of_mem h0 hg)) h hlog
      · obtain ⟨m, hm⟩ := hfl st.data
        simp only [hm] at h
        by_cases hbs : pyStartsWith ht "before_" = true
        · rw [if_pos hbs] at h
          exact absurd h (by simp)
        · rw [if_neg hbs] at h
          exact ih _ (fun g hg => idf g (List.mem_cons_of_mem h0 hg)) h
            (hasFailureLog_logHookFailure st.data h0 (hookErrorMsg m))

theorem runHooksList_failure_recorded (ht : String)
    (hbs : pyStartsWith ht "before_" = false) (hs : List Hook) (h : Hook)
    (hmem : h ∈ hs) (hcond : ∀ d, conditionMet h.condition d = true)
    (hfail : ∀ d, ∃ m, h.run d = Except.error m)
    (idf : ∀ g ∈ hs, (∀ d, g.run d = Except.ok d) ∨ (∀ d, ∃ m, g.run d = Except.error m))
    (st : HookRun) :
    ∃ out, runHooksList ht hs st = Except.ok out ∧
      (∃ r ∈ out.results, r.hookId = h.id ∧ r.success = false) ∧
      hasFailureLog out.data = true := by
  induction hs generalizing st with
  | nil => cases hmem
  | cons h0 rest ih =>
    rw [runHooksList_cons]
    rcases List.mem_cons.mp hmem with he | hmem2
    · subst he
      rw [if_neg (by rw [hcond st.data]; simp)]
      obtain ⟨m, hm⟩ := hfail st.data
      simp only [hm, hbs, Bool.false_eq_true, if_false]
      set st2 : HookRun :=
        { data := logHookFailure st.data h (hookErrorMsg m)
          results := st.results ++
            [{ hookId := h.id, hookType := ht, actionType := h.actionType,
               success := false, errorMsg := some (hookErrorMsg m) }] } with hst2
      obtain ⟨out, hout⟩ := runHooksList_ok_not_before ht hbs rest st2
      obtain ⟨suffix, hsuf⟩ := runHooksList_results_prefix ht rest st2 out hout
      have hlog := runHooksList_log_preserved ht rest st2 out
        (fun g hg => idf g (List.mem_cons_of_mem h hg)) hout
        (hasFailureLog_logHookFailure st.data h (hookErrorMsg m))
      refine ⟨out, hout, ?_, hlog⟩
      refine ⟨{ hookId := h.id, hookType := ht, actionType := h.actionType,
                success := false, errorMsg := some (hookErrorMsg m) }, ?_, rfl, rfl⟩
      rw [hsuf, hst2]
      simp
    · by_cases hcm : (!(conditionMet h0.condition st.data)) = true
      · rw [if_pos hcm]
        exact ih hmem2 (fun g hg => idf g (List.mem_cons_of_mem h0 hg)) st
      · rw [if_neg hcm]
        rcases idf h0 (List.mem_cons_self h0 rest) with hid | hfl
        · simp only [hid st.data]
          exact ih hmem2 (fun g hg => idf g (List.mem_cons_of_mem h0 hg)) _
        · obtain ⟨m, hm⟩ := hfl st.data
          simp only [hm, hbs, Bool.false_eq_true, if_false]
          exact ih hmem2 (fun g hg => idf g (List.mem_cons_of_mem h0 hg)) _


theorem latestVersion_none (vs : List Version) (h : latestVersion vs = none) :
    vs = [] := by
  cases vs with
  | nil => rfl
  | cons v rest =>
    exfalso
    unfold latestVersion at h
    cases hlr : latestVersion rest with
    | none =>
      simp only [hlr] at h
      exact Option.noConfusion h
    | some w =>
      simp only [hlr] at h
      by_cases hgt : w.versionNumber > v.versionNumber
      · rw [if_pos hgt] at h
        exact Option.noConfusion h
      · rw [if_neg hgt] at h
        exact Option.noConfusion h

theorem latestVersion_ge (vs : List Version) (w : Version)
    (hw : latestVersion vs = some w) :
    ∀ u ∈ vs, u.versionNumber ≤ w.versionNumber := by
  induction vs generalizing w with
  | nil => intro u hu; cases hu
  | cons v rest ih =>
    intro u hu
    unfold latestVersion at hw
    cases hlr : latestVersion rest with
    | none =>
      simp only [hlr] at hw
      injection hw with hw
      have hrest := latestVersion_none rest hlr
      subst hrest
      rcases List.mem_cons.mp hu with he | hu2
      · rw [he, hw]
      · cases hu2
    | some w2 =>
      simp only [hlr] at hw
      rcases List.mem_cons.mp hu with he | hu2
      · subst he
        by_cases hgt : w2.versionNumber > u.versionNumber
        · rw [if_pos hgt] at hw
          injection hw with hw
          subst hw
          omega
        · rw [if_neg hgt] at hw
          injection hw with hw
          rw [hw]
      · have hle := ih w2 hlr u hu2
        by_cases hgt : w2.versionNumber > v.versionNumber
        · rw [if_pos hgt] at hw
          injection hw with hw
          subst hw
          exact hle
        · rw [if_neg hgt] at hw
          injection hw with hw
          subst hw
          omega

theorem createVersionCore_number_gt (st : Store) (i : DocData) (c : String) :
    ∀ u ∈ st.versions, u.versionNumber < (createVersionCore st i c).2.versionNumber := by
  intro u hu
  show u.versionNumber < (match latestVersion st.versions with
    | some v => v.versionNumber + 1
    | none => (1 : Int))
  cases hl : latestVersion st.versions with
  | none =>
    rw [latestVersion_none st.versions hl] at hu
    cases hu
  | some w =>
    have hle := latestVersion_ge st.versions w hl u hu
    simp only [hl]
    exact lt_of_le_of_lt hle (lt_add_one w.versionNumber)

theorem createVersionCore_snd_snapshot (st : Store) (i : DocData) (c : String) :
    (createVersionCore st i c).2.dataSnapshot = i := rfl

theorem createVersionCore_fst (st : Store) (i : DocData) (c : String) :
    (createVersionCore st i c).1 =
      { st with versions := st.versions ++ [(createVersionCore st i c).2] } := rfl

theorem savePipeline_benign (flds : List Field) (hooks : List Hook)
    (hbg : ∀ g ∈ hooks, ∀ d, g.run d = Except.ok d)
    (hvid : ∀ d, validateData flds d = Except.ok d) :
    ∀ (fuel : Nat) (vOnly : Bool) (st : Store) (i : DocData) (vn : Int)
      (c : String) (d0 : Doc), st.fields = flds → st.doc = some d0 →
      (fuel = 0 ∧
        savePipeline fuel vOnly st i vn hooks c =
          Except.error SaveError.recursionError) ∨
      ∃ out vnOut newVs,
        savePipeline fuel vOnly st i vn hooks c = Except.ok out ∧
        out.instData = i ∧
        out.store.fields = flds ∧
        out.store.doc = some ⟨(if vOnly then d0.data else i), vnOut, d0.isDeleted⟩ ∧
        out.store.versions = st.versions ++ newVs ∧
        ∀ w ∈ newVs, w.dataSnapshot = i ∧
          ∀ u ∈ st.versions, u.versionNumber < w.versionNumber := by
  intro fuel
  induction fuel with
  | zero =>
    intro vOnly st i vn c d0 hst hdoc
    exact Or.inl ⟨rfl, rfl⟩
  | succ f ih =>
    intro vOnly st i vn c d0 hst hdoc
    right
    have hval : validateData st.fields i = Except.ok i := by rw [hst]; exact hvid i
    obtain ⟨rs1, hbe⟩ := runHooksList_benign "before_save" (selectHooks "before_save" hooks)
      { data := i, results := [] } (fun g hg => hbg g (mem_of_mem_selectHooks _ _ g hg))
    have hbe2 : executeHooks "before_save" hooks i =
        Except.ok { data := i, results := rs1 } := hbe
    obtain ⟨rs2, haf⟩ := runHooksList_benign "after_save" (selectHooks "after_save" hooks)
      { data := i, results := [] } (fun g hg => hbg g (mem_of_mem_selectHooks _ _ g hg))
    have haf2 : executeHooks "after_save" hooks i =
        Except.ok { data := i, results := rs2 } := haf
    obtain ⟨rs3, hoc⟩ := runHooksList_benign "on_change" (selectHooks "on_change" hooks)
      { data := i, results := [] } (fun g hg => hbg g (mem_of_mem_selectHooks _ _ g hg))
    have hoc2 : executeHooks "on_change" hooks i =
        Except.ok { data := i, results := rs3 } := hoc
    simp only [savePipeline, hval, hdoc, hbe2, haf2]
    set stW : Store :=
      ⟨st.fields, some ⟨(if vOnly then d0.data else i), vn, d0.isDeleted⟩, st.versions⟩
      with hstW
    rcases ih true (createVersionCore stW i c).1 i
        (createVersionCore stW i c).2.versionNumber c
        ⟨(if vOnly then d0.data else i), vn, d0.isDeleted⟩ hst rfl with
      ⟨hf0, hinner⟩ | ⟨out2, vn2, newVs2, hsp2, hi2, hf2, hd2, hv2, hprop2⟩
    · by_cases hgate : d0.data ≠ [] ∧ d0.data ≠ i
      · rw [if_pos hgate]
        simp only [hoc2, hinner]
        refine ⟨_, vn, [(createVersionCore stW i c).2], rfl, rfl, hst, rfl, rfl, ?_⟩
        intro w hw
        rw [List.mem_singleton] at hw
        subst hw
        exact ⟨rfl, fun u hu => createVersionCore_number_gt stW i c u hu⟩
      · rw [if_neg hgate]
        simp only [hinner]
        refine ⟨_, vn, [(createVersionCore stW i c).2], rfl, rfl, hst, rfl, rfl, ?_⟩
        intro w hw
        rw [List.mem_singleton] at hw
        subst hw
        exact ⟨rfl, fun u hu => createVersionCore_number_gt stW i c u hu⟩
    · by_cases hgate : d0.data ≠ [] ∧ d0.data ≠ i
      · rw [if_pos hgate]
        simp only [hoc2, hsp2]
        refine ⟨_, vn2, (createVersionCore stW i c).2 :: newVs2, rfl, hi2, hf2, hd2, ?_, ?_⟩
        · show out2.store.versions = _
          rw [hv2]
          exact List.append_assoc st.versions [(createVersionCore stW i c).2] newVs2
        · intro w hw
          rcases List.mem_cons.mp hw with he | hw2
          · subst he
            exact ⟨rfl, fun u hu => createVersionCore_number_gt stW i c u hu⟩
          · rcases hprop2 w hw2 with ⟨hsnap, hgt⟩
            exact ⟨hsnap, fun u hu => hgt u (List.mem_append_left _ hu)⟩
      · rw [if_neg hgate]
        simp only [hsp2]
        refine ⟨_, vn2, (createVersionCore stW i c).2 :: newVs2, rfl, hi2, hf2, hd2, ?_, ?_⟩
        · show out2.store.versions = _
          rw [hv2]
          exact List.append_assoc st.versions [(createVersionCore stW i c).2] newVs2
        · intro w hw
          rcases List.mem_cons.mp hw with he | hw2
          · subst he
            exact ⟨rfl, fun u hu => createVersionCore_number_gt stW i c u hu⟩
          · rcases hprop2 w hw2 with ⟨hsnap, hgt⟩
            exact ⟨hsnap, fun u hu => hgt u (List.mem_append_left _ hu)⟩

theorem createVersion_benign (flds : List Field) (hooks : List Hook)
    (hbg : ∀ g ∈ hooks, ∀ d, g.run d = Except.ok d)
    (hvid : ∀ d, validateData flds d = Except.ok d)
    (f : Nat) (st : Store) (i : DocData) (c : String) (d1 : Doc)
    (hst : st.fields = flds) (hdoc : st.doc = some d1) :
    ∃ vn2 newVs,
      (createVersion (Nat.succ f) st i hooks c).exn = none ∧
      (createVersion (Nat.succ f) st i hooks c).instData = i ∧
      (createVersion (Nat.succ f) st i hooks c).version = (createVersionCore st i c).2 ∧
      (createVersion (Nat.succ f) st i hooks c).store.fields = flds ∧
      (createVersion (Nat.succ f) st i hooks c).store.doc = some ⟨d1.data, vn2, d1.isDeleted⟩ ∧
      (createVersion (Nat.succ f) st i hooks c).store.versions =
        st.versions ++ (createVersionCore st i c).2 :: newVs ∧
      ∀ w ∈ newVs, w.dataSnapshot = i ∧
        ∀ u ∈ st.versions, u.versionNumber < w.versionNumber := by
  rcases savePipeline_benign flds hooks hbg hvid (Nat.succ f) true
      (createVersionCore st i c).1 i (createVersionCore st i c).2.versionNumber c
      d1 hst hdoc with
    ⟨hf0, hinner⟩ | ⟨out2, vn2, newVs2, hsp2, hi2, hf2, hd2, hv2, hprop2⟩
  · exact absurd hf0 (Nat.succ_ne_zero f)
  · refine ⟨vn2, newVs2, ?_, ?_, ?_, ?_, ?_, ?_, ?_⟩
    · simp only [createVersion, hsp2]
    · simp only [createVersion, hsp2]
      exact hi2
    · simp only [createVersion, hsp2]
    · simp only [createVersion, hsp2]
      exact hf2
    · simp only [createVersion, hsp2]
      exact hd2
    · simp only [createVersion, hsp2]
      show out2.store.versions = _
      rw [hv2]
      exact List.append_assoc st.versions [(createVersionCore st i c).2] newVs2
    · intro w hw
      rcases hprop2 w hw with ⟨hsnap, hgt⟩
      exact ⟨hsnap, fun u hu => hgt u (List.mem_append_left _ hu)⟩
end Doctypes

namespace Doctypes
/-- C4: with benign hooks and an identity-validating schema, restoring an
existing version number succeeds, copies the target snapshot onto the live
document, and creates a new forward version whose data equals the snapshot
and whose version number is strictly greater than every previously existing
version number, while every prior version row is preserved (the old version
list is a prefix of the new one). -/
theorem C4_restore_forward (flds : List Field) (hooks : List Hook)
    (f : Nat) (st : Store) (targetVN : Int) (comment : String) (v : Version) (d0 : Doc)
    (hbg : ∀ g ∈ hooks, ∀ d, g.run d = Except.ok d)
    (hvid : ∀ d, validateData flds d = Except.ok d)
    (hst : st.fields = flds) (hdoc : st.doc = some d0)
    (hget : getVersionFromStore st targetVN = some v) :
    ∃ st2 nv vnD newVs,
      restoreVersion (Nat.succ f) st targetVN hooks comment = Except.ok (st2, nv) ∧
      nv.dataSnapshot = v.dataSnapshot ∧
      (∀ u ∈ st.versions, u.versionNumber < nv.versionNumber) ∧
      st2.versions = st.versions ++ newVs ∧
      nv ∈ newVs ∧
      st2.doc = some ⟨v.dataSnapshot, vnD, d0.isDeleted⟩ := by
  rcases savePipeline_benign flds hooks hbg hvid (Nat.succ f) false st v.dataSnapshot
      d0.versionNumber "" d0 hst hdoc with
    ⟨hf0, _⟩ | ⟨out, vnO, newVs1, hsp, hi, hf, hd, hv, hprop⟩
  · exact absurd hf0 (Nat.succ_ne_zero f)
  simp only [restoreVersion, hget, hdoc, hsp]
  set rc : String :=
    (if comment == "" then "Restored to version " ++ toString targetVN else comment)
    with hrc
  rcases createVersion_benign flds hooks hbg hvid f out.store out.instData rc
      ⟨(if (false : Bool) then d0.data else v.dataSnapshot), vnO, d0.isDeleted⟩ hf hd with
    ⟨vn2, newVs2, hexn, hinst, hver, hf2, hd2, hv2, hprop2⟩
  simp only [hexn]
  refine ⟨_, _, vn2, newVs1 ++ (createVersionCore out.store out.instData rc).2 :: newVs2,
    rfl, ?_, ?_, ?_, ?_, ?_⟩
  · rw [hver]
    exact hi
  · intro u hu
    rw [hver]
    exact createVersionCore_number_gt out.store out.instData _ u
      (hv.symm ▸ List.mem_append_left newVs1 hu)
  · show (createVersion (Nat.succ f) out.store out.instData hooks rc).store.versions = _
    rw [hv2, hv]
    exact List.append_assoc st.versions newVs1 _
  · rw [hver]
    exact List.mem_append_right _ (List.mem_cons_self _ _)
  · exact hd2
theorem C4_restore_forward_witness :
    ∃ st2 nv vnD newVs,
      restoreVersion (Nat.succ 1) exStore 1 [] "" = Except.ok (st2, nv) ∧
      nv.dataSnapshot = exVersion1.dataSnapshot ∧
      (∀ u ∈ exStore.versions, u.versionNumber < nv.versionNumber) ∧
      st2.versions = exStore.versions ++ newVs ∧
      nv ∈ newVs ∧
      st2.doc = some ⟨exVersion1.dataSnapshot, vnD, false⟩ :=
  C4_restore_forward [] [] 1 exStore 1 "" exVersion1 ⟨exData1, 1, false⟩
    (fun g hg => absurd hg (List.not_mem_nil g)) (fun d => rfl) rfl rfl (by rfl)

/-- C9: on a document save with benign hooks and an identity-validating
schema, the save succeeds and the on_change phase is gated on the pre-write
versus post-write data: if it was invoked the pre-write data differed from
the written data, and whenever the pre-write data deeply equals the written
data the on_change phase is not invoked and produces no results. -/
theorem C9_on_change_only_on_diff (flds : List Field) (hooks : List Hook)
    (f : Nat) (st : Store) (i : DocData) (vn : Int) (c : String) (d0 : Doc)
    (hbg : ∀ g ∈ hooks, ∀ d, g.run d = Except.ok d)
    (hvid : ∀ d, validateData flds d = Except.ok d)
    (hst : st.fields = flds) (hdoc : st.doc = some d0) :
    ∃ out, savePipeline (Nat.succ f) false st i vn hooks c = Except.ok out ∧
      (out.onChangeInvoked = true → d0.data ≠ i) ∧
      (d0.data = i → out.onChangeInvoked = false ∧ out.onChangeResults = []) := by
  have hval : validateData st.fields i = Except.ok i := by rw [hst]; exact hvid i
  obtain ⟨rs1, hbe⟩ := runHooksList_benign "before_save" (selectHooks "before_save" hooks)
    { data := i, results := [] } (fun g hg => hbg g (mem_of_mem_selectHooks _ _ g hg))
  have hbe2 : executeHooks "before_save" hooks i =
      Except.ok { data := i, results := rs1 } := hbe
  obtain ⟨rs2, haf⟩ := runHooksList_benign "after_save" (selectHooks "after_save" hooks)
    { data := i, results := [] } (fun g hg => hbg g (mem_of_mem_selectHooks _ _ g hg))
  have haf2 : executeHooks "after_save" hooks i =
      Except.ok { data := i, results := rs2 } := haf
  obtain ⟨rs3, hoc⟩ := runHooksList_benign "on_change" (selectHooks "on_change" hooks)
    { data := i, results := [] } (fun g hg => hbg g (mem_of_mem_selectHooks _ _ g hg))
  have hoc2 : executeHooks "on_change" hooks i =
      Except.ok { data := i, results := rs3 } := hoc
  simp only [savePipeline, hval, hdoc, hbe2, haf2]
  set stW : Store :=
    ⟨st.fields, some ⟨(if (false : Bool) then d0.data else i), vn, d0.isDeleted⟩, st.versions⟩
    with hstW
  rcases savePipeline_benign flds hooks hbg hvid f true (createVersionCore stW i c).1 i
      (createVersionCore stW i c).2.versionNumber c
      ⟨(if (false : Bool) then d0.data else i), vn, d0.isDeleted⟩ hst rfl with
    ⟨hf0, hinner⟩ | ⟨out2, vn2, newVs2, hsp2, hi2, hf2, hd2, hv2, hprop2⟩
  · by_cases hgate : d0.data ≠ [] ∧ d0.data ≠ i
    · rw [if_pos hgate]
      simp only [hoc2, hinner]
      exact ⟨_, rfl, fun _ => hgate.2, fun heq => absurd heq hgate.2⟩
    · rw [if_neg hgate]
      simp only [hinner]
      exact ⟨_, rfl, fun hinv => Bool.noConfusion hinv, fun _ => ⟨rfl, rfl⟩⟩
  · by_cases hgate : d0.data ≠ [] ∧ d0.data ≠ i
    · rw [if_pos hgate]
      simp only [hoc2, hsp2]
      exact ⟨_, rfl, fun _ => hgate.2, fun heq => absurd heq hgate.2⟩
    · rw [if_neg hgate]
      simp only [hsp2]
      exact ⟨_, rfl, fun hinv => Bool.noConfusion hinv, fun _ => ⟨rfl, rfl⟩⟩

theorem C9_on_change_only_on_diff_witness :
    ∃ out, savePipeline (Nat.succ 0) false exStore exData1 2 [] "" = Except.ok out ∧
      (out.onChangeInvoked = true → exData1 ≠ exData1) ∧
      (exData1 = exData1 → out.onChangeInvoked = false ∧ out.onChangeResults = []) :=
  C9_on_change_only_on_diff [] [] 0 exStore exData1 2 "" ⟨exData1, 1, false⟩
    (fun g hg => absurd hg (List.not_mem_nil g)) (fun _ => rfl) rfl rfl

theorem savePipeline_log_preserved (h : Hook)
    (hnb : pyStartsWith h.hookType "before_" = false)
    (hid : (∀ d, h.run d = Except.ok d) ∨ (∀ d, ∃ m, h.run d = Except.error m)) :
    ∀ (fuel : Nat) (st : Store) (i : DocData) (vn : Int) (c : String) (d0 : Doc),
      st.doc = some d0 → (∀ d, validateData st.fields d = Except.ok d) →
      hasFailureLog i = true →
      savePipeline fuel true st i vn [h] c = Except.error SaveError.recursionError ∨
      ∃ out vnD, savePipeline fuel true st i vn [h] c = Except.ok out ∧
        hasFailureLog out.instData = true ∧
        out.store.doc = some ⟨d0.data, vnD, d0.isDeleted⟩ := by
  have hsb : selectHooks "before_save" [h] = [] :=
    selectHooks_nil_before "before_save" [h] rfl
      (fun g hg => by rw [List.mem_singleton] at hg; rw [hg]; exact hnb)
  have hidf : ∀ g ∈ selectHooks "after_save" [h],
      (∀ d, g.run d = Except.ok d) ∨ (∀ d, ∃ m, g.run d = Except.error m) := by
    intro g hg
    have hg2 := mem_of_mem_selectHooks _ _ g hg
    rw [List.mem_singleton] at hg2
    rw [hg2]
    exact hid
  have hidf2 : ∀ g ∈ selectHooks "on_change" [h],
      (∀ d, g.run d = Except.ok d) ∨ (∀ d, ∃ m, g.run d = Except.error m) := by
    intro g hg
    have hg2 := mem_of_mem_selectHooks _ _ g hg
    rw [List.mem_singleton] at hg2
    rw [hg2]
    exact hid
  intro fuel
  induction fuel with
  | zero =>
    intro st i vn c d0 hdoc hvid hlog
    left
    rfl
  | succ f ih =>
    intro st i vn c d0 hdoc hvid hlog
    right
    have hval : validateData st.fields i = Except.ok i := hvid i
    have hbe : executeHooks "before_save" [h] i = Except.ok { data := i, results := [] } := by
      rw [executeHooks_eq, hsb, runHooksList_nil]
    obtain ⟨run2, haf⟩ := runHooksList_ok_not_before "after_save" rfl
      (selectHooks "after_save" [h]) { data := i, results := [] }
    have haf2 : executeHooks "after_save" [h] i = Except.ok run2 := by
      rw [executeHooks_eq]
      exact haf
    have hlog2 : hasFailureLog run2.data = true :=
      runHooksList_log_preserved "after_save" (selectHooks "after_save" [h])
        { data := i, results := [] } run2 hidf haf hlog
    simp only [savePipeline, hval, hdoc, hbe, haf2, if_true]
    set stW : Store :=
      ⟨st.fields, some ⟨d0.data, vn, d0.isDeleted⟩, st.versions⟩
      with hstW
    by_cases hgate : d0.data ≠ [] ∧ d0.data ≠ run2.data
    · rw [if_pos hgate]
      obtain ⟨run3, hoc⟩ := runHooksList_ok_not_before "on_change" rfl
        (selectHooks "on_change" [h]) { data := run2.data, results := [] }
      have hoc2 : executeHooks "on_change" [h] run2.data = Except.ok run3 := by
        rw [executeHooks_eq]
        exact hoc
      have hlog3 : hasFailureLog run3.data = true :=
        runHooksList_log_preserved "on_change" (selectHooks "on_change" [h])
          { data := run2.data, results := [] } run3 hidf2 hoc hlog2
      simp only [hoc2]
      rcases ih (createVersionCore stW run3.data c).1 run3.data
          (createVersionCore stW run3.data c).2.versionNumber c
          ⟨d0.data, vn, d0.isDeleted⟩ rfl hvid hlog3 with
        hinner | ⟨out2, vnD2, hsp2, hlog4, hdoc4⟩
      · simp only [hinner]
        exact ⟨_, vn, rfl, hlog3, rfl⟩
      · simp only [hsp2]
        exact ⟨_, vnD2, rfl, hlog4, hdoc4⟩
    · rw [if_neg hgate]
      rcases ih (createVersionCore stW run2.data c).1 run2.data
          (createVersionCore stW run2.data c).2.versionNumber c
          ⟨d0.data, vn, d0.isDeleted⟩ rfl hvid hlog2 with
        hinner | ⟨out2, vnD2, hsp2, hlog4, hdoc4⟩
      · simp only [hinner]
        exact ⟨_, vn, rfl, hlog2, rfl⟩
      · simp only [hsp2]
        exact ⟨_, vnD2, rfl, hlog4, hdoc4⟩

/-- C2: with a configured failing hook, a before_save hook failure makes the
document write raise HookExecutionError (no ok outcome, so no store change),
a before_delete hook failure makes the delete raise HookExecutionError, while
an after_save or on_change hook failure leaves the write committed: the save
returns ok, the new data is on the document row, and the failure is recorded
(an unsuccessful hook result for the after_save case, and a hook_failures
history entry on the instance data in both cases). -/
theorem C2_hook_failure_policy (st : Store) (i : DocData) (vn : Int) (c : String)
    (f : Nat) (d0 : Doc) (hb hd ha hc : Hook)
    (hdoc : st.doc = some d0)
    (hvid : ∀ d, validateData st.fields d = Except.ok d)
    (hbty : hb.hookType = "before_save") (hbact : hb.isActive = true)
    (hbcond : ∀ d, conditionMet hb.condition d = true)
    (hbfail : ∀ d, ∃ m, hb.run d = Except.error m)
    (hdty : hd.hookType = "before_delete") (hdact : hd.isActive = true)
    (hdcond : ∀ d, conditionMet hd.condition d = true)
    (hdfail : ∀ d, ∃ m, hd.run d = Except.error m)
    (haty : ha.hookType = "after_save") (haact : ha.isActive = true)
    (hacond : ∀ d, conditionMet ha.condition d = true)
    (hafail : ∀ d, ∃ m, ha.run d = Except.error m)
    (hcty : hc.hookType = "on_change") (hcact : hc.isActive = true)
    (hccond : ∀ d, conditionMet hc.condition d = true)
    (hcfail : ∀ d, ∃ m, hc.run d = Except.error m)
    (hchg : d0.data ≠ [] ∧ d0.data ≠ i) :
    (∃ e, savePipeline (Nat.succ f) false st i vn [hb] c =
        Except.error (SaveError.hookExecutionError e)) ∧
    (∃ e, deleteDocument st [hd] = Except.error (SaveError.hookExecutionError e)) ∧
    (∃ out vnD, savePipeline (Nat.succ f) false st i vn [ha] c = Except.ok out ∧
        hasFailureLog out.instData = true ∧
        (∃ r ∈ out.afterResults, r.hookId = ha.id ∧ r.success = false) ∧
        out.store.doc = some ⟨i, vnD, d0.isDeleted⟩) ∧
    (∃ out vnD, savePipeline (Nat.succ f) false st i vn [hc] c = Except.ok out ∧
        hasFailureLog out.instData = true ∧
        out.onChangeInvoked = true ∧
        out.store.doc = some ⟨i, vnD, d0.isDeleted⟩) := by
  have hval : validateData st.fields i = Except.ok i := hvid i
  refine ⟨?_, ?_, ?_, ?_⟩
  · have hsel1 : selectHooks "before_save" [hb] = [hb] := by
      simp [selectHooks, hbty, hbact]
    obtain ⟨e1, herr1⟩ := runHooksList_error_of_failing "before_save" rfl [hb] hb
      (List.mem_cons_self hb []) hbcond hbfail { data := i, results := [] }
    have hex1 : executeHooks "before_save" [hb] i = Except.error e1 := by
      rw [executeHooks_eq, hsel1]
      exact herr1
    refine ⟨e1, ?_⟩
    simp only [savePipeline, hval, hdoc, hex1]
  · have hsel2 : selectHooks "before_delete" [hd] = [hd] := by
      simp [selectHooks, hdty, hdact]
    obtain ⟨e2, herr2⟩ := runHooksList_error_of_failing "before_delete" rfl [hd] hd
      (List.mem_cons_self hd []) hdcond hdfail { data := d0.data, results := [] }
    have hex2 : executeHooks "before_delete" [hd] d0.data = Except.error e2 := by
      rw [executeHooks_eq, hsel2]
      exact herr2
    refine ⟨e2, ?_⟩
    simp only [deleteDocument, hdoc, hex2]
  · have hsel3b : selectHooks "before_save" [ha] = [] := by
      simp [selectHooks, haty]
    have hbe3 : executeHooks "before_save" [ha] i =
        Except.ok { data := i, results := [] } := by
      rw [executeHooks_eq, hsel3b, runHooksList_nil]
    have hsel3a : selectHooks "after_save" [ha] = [ha] := by
      simp [selectHooks, haty, haact]
    obtain ⟨run2, hrun2, ⟨r, hrmem, hrid, hrsucc⟩, hlog2⟩ :=
      runHooksList_failure_recorded "after_save" rfl [ha] ha (List.mem_cons_self ha [])
        hacond hafail
        (fun g hg => by rw [List.mem_singleton] at hg; rw [hg]; exact Or.inr hafail)
        { data := i, results := [] }
    have haf3 : executeHooks "after_save" [ha] i = Except.ok run2 := by
      rw [executeHooks_eq, hsel3a]
      exact hrun2
    simp only [savePipeline, hval, hdoc, hbe3, haf3, Bool.false_eq_true, if_false]
    set stW : Store := ⟨st.fields, some ⟨i, vn, d0.isDeleted⟩, st.versions⟩ with hstW
    by_cases hg3 : d0.data ≠ [] ∧ d0.data ≠ run2.data
    · rw [if_pos hg3]
      have hsel3c : selectHooks "on_change" [ha] = [] := by
        simp [selectHooks, haty]
      have hoc3 : executeHooks "on_change" [ha] run2.data =
          Except.ok { data := run2.data, results := [] } := by
        rw [executeHooks_eq, hsel3c, runHooksList_nil]
      simp only [hoc3]
      rcases savePipeline_log_preserved ha (by rw [haty]; rfl) (Or.inr hafail) f
          (createVersionCore stW run2.data c).1 run2.data
          (createVersionCore stW run2.data c).2.versionNumber c
          ⟨i, vn, d0.isDeleted⟩ rfl hvid hlog2 with
        hinner | ⟨out2, vnD2, hsp2, hlog4, hdoc4⟩
      · simp only [hinner]
        exact ⟨_, vn, rfl, hlog2, ⟨r, hrmem, hrid, hrsucc⟩, rfl⟩
      · simp only [hsp2]
        exact ⟨_, vnD2, rfl, hlog4, ⟨r, hrmem, hrid, hrsucc⟩, hdoc4⟩
    · rw [if_neg hg3]
      rcases savePipeline_log_preserved ha (by rw [haty]; rfl) (Or.inr hafail) f
          (createVersionCore stW run2.data c).1 run2.data
          (createVersionCore stW run2.data c).2.versionNumber c
          ⟨i, vn, d0.isDeleted⟩ rfl hvid hlog2 with
        hinner | ⟨out2, vnD2, hsp2, hlog4, hdoc4⟩
      · simp only [hinner]
        exact ⟨_, vn, rfl, hlog2, ⟨r, hrmem, hrid, hrsucc⟩, rfl⟩
      · simp only [hsp2]
        exact ⟨_, vnD2, rfl, hlog4, ⟨r, hrmem, hrid, hrsucc⟩, hdoc4⟩
  · have hsel4b : selectHooks "before_save" [hc] = [] := by
      simp [selectHooks, hcty]
    have hbe4 : executeHooks "before_save" [hc] i =
        Except.ok { data := i, results := [] } := by
      rw [executeHooks_eq, hsel4b, runHooksList_nil]
    have hsel4a : selectHooks "after_save" [hc] = [] := by
      simp [selectHooks, hcty]
    have haf4 : executeHooks "after_save" [hc] i =
        Except.ok { data := i, results := [] } := by
      rw [executeHooks_eq, hsel4a, runHooksList_nil]
    simp only [savePipeline, hval, hdoc, hbe4, haf4, Bool.false_eq_true, if_false]
    rw [if_pos hchg]
    have hsel4c : selectHooks "on_change" [hc] = [hc] := by
      simp [selectHooks, hcty, hcact]
    obtain ⟨run3, hrun3, hrec3, hlog3⟩ :=
      runHooksList_failure_recorded "on_change" rfl [hc] hc (List.mem_cons_self hc [])
        hccond hcfail
        (fun g hg => by rw [List.mem_singleton] at hg; rw [hg]; exact Or.inr hcfail)
        { data := i, results := [] }
    have hoc4 : executeHooks "on_change" [hc] i = Except.ok run3 := by
      rw [executeHooks_eq, hsel4c]
      exact hrun3
    simp only [hoc4]
    set stW : Store := ⟨st.fields, some ⟨i, vn, d0.isDeleted⟩, st.versions⟩ with hstW
    rcases savePipeline_log_preserved hc (by rw [hcty]; rfl) (Or.inr hcfail) f
        (createVersionCore stW run3.data c).1 run3.data
        (createVersionCore stW run3.data c).2.versionNumber c
        ⟨i, vn, d0.isDeleted⟩ rfl hvid hlog3 with
      hinner | ⟨out2, vnD2, hsp2, hlog4, hdoc4⟩
    · simp only [hinner]
      exact ⟨_, vn, rfl, hlog3, rfl, rfl⟩
    · simp only [hsp2]
      exact ⟨_, vnD2, rfl, hlog4, rfl, hdoc4⟩

theorem C2_hook_failure_policy_witness :
    (∃ e, savePipeline (Nat.succ 0) false exStore [("a", vInt 2)] 2 [exFailBeforeHook] "" =
        Except.error (SaveError.hookExecutionError e)) ∧
    (∃ e, deleteDocument exStore [exFailDeleteHook] =
        Except.error (SaveError.hookExecutionError e)) ∧
    (∃ out vnD, savePipeline (Nat.succ 0) false exStore [("a", vInt 2)] 2
          [exFailAfterHook] "" = Except.ok out ∧
        hasFailureLog out.instData = true ∧
        (∃ r ∈ out.afterResults, r.hookId = exFailAfterHook.id ∧ r.success = false) ∧
        out.store.doc = some ⟨[("a", vInt 2)], vnD, false⟩) ∧
    (∃ out vnD, savePipeline (Nat.succ 0) false exStore [("a", vInt 2)] 2
          [exFailChangeHook] "" = Except.ok out ∧
        hasFailureLog out.instData = true ∧
        out.onChangeInvoked = true ∧
        out.store.doc = some ⟨[("a", vInt 2)], vnD, false⟩) :=
  C2_hook_failure_policy exStore [("a", vInt 2)] 2 "" 0 ⟨exData1, 1, false⟩
    exFailBeforeHook exFailDeleteHook exFailAfterHook exFailChangeHook
    rfl (fun _ => rfl) rfl rfl (fun _ => rfl) (fun _ => ⟨"stop", rfl⟩)
    rfl rfl (fun _ => rfl) (fun _ => ⟨"keep", rfl⟩)
    rfl rfl (fun _ => rfl) (fun _ => ⟨"boom", rfl⟩)
    rfl rfl (fun _ => rfl) (fun _ => ⟨"observer down", rfl⟩)
    (by decide)

end Doctypes
